import Mathlib

/-!
# gorist: request construction and error normalisation

A shallow embedding of the Go package `gorist` (a client binding for the
Grist REST API) together with the parts of the Go standard library that its
dispatcher `Client.httpRequest` observes.

Conventions of the embedding

* A Go `string` and a non-nil `[]byte` are both a list of bytes (`Bytes`);
  the conversions `string(b)` and `[]byte(s)` are the identity.
* A slice that may be `nil` (`json.RawMessage`, a variadic argument list) is
  an `Option`: `none` is `nil`, `some []` is an empty non-nil slice.
* An `io.Reader` is modelled by the bytes it yields; a nil reader is `none`.
* A Go function returning `(value, error)` returns a `Result`, which also
  records the requests handed to the HTTP transport during the call.
* The HTTP transport is a field of the client: a function from the request to
  the response or to an error.
* A URL is kept as `url.Parse` splits it, each component in its written form.
-/

namespace Gorist

/-! ## Bytes and text -/

/-- One octet. -/
abbrev Byte := Fin 256

/-- The contents of a Go `string` or of a non-nil `[]byte`. -/
abbrev Bytes := List Byte

/-- The byte of an ASCII character. -/
def byte (c : Char) : Byte := Fin.ofNat c.toNat

/-- The double quote. -/
def dquote : Byte := 34

/-- The backslash. -/
def backslash : Byte := 92

/-- The opening brace. -/
def lbrace : Byte := 123

/-- The closing brace. -/
def rbrace : Byte := 125

/-- The bytes of an ASCII string literal. -/
def lit (s : String) : Bytes := s.toList.map byte

/-- Decimal digits of a natural number, most significant first. -/
def formatNat (n : Nat) : Bytes := (Nat.toDigits 10 n).map byte

/-- Go's rendering of an integer under the verb `%d`: a minus sign for negative
values followed by the decimal digits of the magnitude. -/
def formatInt (n : Int) : Bytes :=
  if n < 0 then byte '-' :: formatNat n.natAbs else formatNat n.natAbs

/-- An operand of `fmt.Sprintf`: a string (or a named string type such as
`DocumentID`) or an integer (or a named integer type such as `WorkspaceID`). -/
inductive Arg where
  | s (v : Bytes)
  | d (v : Int)
  deriving DecidableEq, Repr

/-- Rendering of one operand under a verb. The pairings used by this package are
`%s` with a string and `%d` with an integer; a mismatched pairing produces Go's
bad-verb marker, abbreviated here to `%!` followed by the verb. -/
def formatArg (verb : Byte) (a : Arg) : Bytes :=
  match a with
  | .s v => if verb = byte 's' then v else [byte '%', byte '!', verb]
  | .d v => if verb = byte 'd' then formatInt v else [byte '%', byte '!', verb]

/-- Model of `fmt.Sprintf` for formats built from literal text, `%%`, `%s` and
`%d`: the format is scanned left to right, each verb consumes the next operand.
A verb without an operand left renders as `%!v(MISSING)` with `v` the verb, a
lone `%` ending the format as `%!(NOVERB)`. Operands left over, which Go reports
at the end of the output, do not occur in this package and are ignored. -/
def Sprintf : Bytes → List Arg → Bytes
  | [], _ => []
  | [c], _ => if c = byte '%' then lit "%!(NOVERB)" else [c]
  | c :: v :: rest, args =>
    if c = byte '%' then
      if v = byte '%' then byte '%' :: Sprintf rest args
      else
        match args with
        | [] => [byte '%', byte '!', v] ++ lit "(MISSING)" ++ Sprintf rest []
        | a :: as => formatArg v a ++ Sprintf rest as
    else c :: Sprintf (v :: rest) args

/-! ## Errors -/

/-- The struct `GristError` of grist.go. -/
structure GristError where
  StatusCode : Int
  Details : Bytes
  deriving DecidableEq, Repr

/-- The method `GristError.Error` of grist.go. -/
def GristError.Error (g : GristError) : Bytes :=
  Sprintf (lit "status: %d, details: %s") [.d g.StatusCode, .s g.Details]

/-- Go `error` values met in this package. A value is kept with the type it has
in Go, so that one can tell a `GristError` from every other error. -/
inductive GoError where
  /-- A value of `errors.New`. -/
  | errorString (msg : Bytes)
  /-- A failure of `http.NewRequest`, a value the standard library creates. -/
  | newRequest (msg : Bytes)
  /-- A `*url.Error` with its operation, its URL and the error it wraps: the
  type of the errors of `http.Client.Do`. -/
  | urlError (op : Bytes) (target : Bytes) (inner : GoError)
  /-- An error of a reader or of the network, by its message. -/
  | read (msg : Bytes)
  /-- A `json.MarshalerError`, wrapping the error of a `MarshalJSON` method. -/
  | marshaler (inner : GoError)
  /-- A `GristError`. -/
  | grist (g : GristError)
  /-- A `strconv.NumError` of `Atoi` for the text `num`; its sentinel is
  `ErrRange` when `outOfRange` is set and `ErrSyntax` otherwise. -/
  | numError (num : Bytes) (outOfRange : Bool)
  deriving DecidableEq, Repr

deriving instance DecidableEq for Except

/-! ## net/url

The parts of Go's `net/url` that `Client.httpRequest` goes through: query
escaping, `ParseQuery`, `Values` and `Parse`. -/

namespace url

/-- Model of `strings.Cut` with a one-byte separator: the text before the first
separator and the text after it (empty when there is no separator). -/
def cut (sep : Byte) : Bytes → Bytes × Bytes
  | [] => ([], [])
  | c :: cs => if c = sep then ([], cs) else ((cut sep cs).1.cons c, (cut sep cs).2)

/-- Model of `strings.Split` with a one-byte separator. -/
def split (sep : Byte) : Bytes → List Bytes
  | [] => [[]]
  | c :: cs =>
    if c = sep then [] :: split sep cs
    else
      match split sep cs with
      | [] => [[c]]
      | p :: ps => (c :: p) :: ps

/-- ASCII letters and digits, the first test of `shouldEscape`. -/
def isAlnum (c : Byte) : Bool :=
  (97 ≤ c.val && c.val ≤ 122) || (65 ≤ c.val && c.val ≤ 90) || (48 ≤ c.val && c.val ≤ 57)

/-- Model of `shouldEscape(c, encodeQueryComponent)`: everything is escaped
except letters, digits and the four marks `-`, `_`, `.`, `~`. -/
def shouldEscape (c : Byte) : Bool :=
  if isAlnum c then false
  else if c = byte '-' ∨ c = byte '_' ∨ c = byte '.' ∨ c = byte '~' then false
  else true

/-- The table `upperhex` indexed by a nibble. -/
def upperhex (n : Nat) : Byte := (lit "0123456789ABCDEF").getD n 0

/-- What `escape` writes for one byte in query-component mode. -/
def escapeByte (c : Byte) : Bytes :=
  if shouldEscape c then
    if c = byte ' ' then [byte '+']
    else [byte '%', upperhex (c.val / 16), upperhex (c.val % 16)]
  else [c]

/-- Model of `url.QueryEscape`. -/
def QueryEscape : Bytes → Bytes
  | [] => []
  | c :: cs => escapeByte c ++ QueryEscape cs

/-- Model of `ishex`. -/
def ishex (c : Byte) : Bool :=
  (48 ≤ c.val && c.val ≤ 57) || (97 ≤ c.val && c.val ≤ 102) || (65 ≤ c.val && c.val ≤ 70)

/-- Model of `unhex`. -/
def unhex (c : Byte) : Nat :=
  if 48 ≤ c.val ∧ c.val ≤ 57 then c.val - 48
  else if 97 ≤ c.val ∧ c.val ≤ 102 then c.val - 97 + 10
  else if 65 ≤ c.val ∧ c.val ≤ 70 then c.val - 65 + 10
  else 0

/-- Model of `url.QueryUnescape`: `%XX` becomes the byte `XX`, `+` becomes a
space, a `%` not followed by two hex digits is an error (`none`). -/
def QueryUnescape : Bytes → Option Bytes
  | [] => some []
  | c :: rest =>
    if c = byte '%' then
      match rest with
      | a :: b :: rest2 =>
        if ishex a && ishex b then
          (QueryUnescape rest2).map (List.cons (Fin.ofNat (unhex a * 16 + unhex b)))
        else none
      | _ => none
    else (QueryUnescape rest).map (List.cons (if c = byte '+' then byte ' ' else c))

/-- The type `url.Values`, a map from a key to the list of its values, kept as
the list of (key, value) pairs in order of insertion. The order between pairs of
different keys is not observable through the operations below. -/
abbrev Values := List (Bytes × Bytes)

/-- The slice `v[key]`: the values stored under a key, in order. -/
def Values.values (v : Values) (key : Bytes) : List Bytes :=
  (v.filter (fun p => p.1 = key)).map Prod.snd

/-- Model of `Values.Get`: the first value under the key, or the empty string. -/
def Values.Get (v : Values) (key : Bytes) : Bytes :=
  (Values.values v key).headD []

/-- Model of `Values.Add`: appends the value to the values of the key. -/
def Values.Add (v : Values) (key value : Bytes) : Values := v ++ [(key, value)]

/-- Model of `Values.Del`: deletes every value of the key. -/
def Values.Del (v : Values) (key : Bytes) : Values := v.filter (fun p => ¬ p.1 = key)

/-- Byte-wise lexicographic order of Go strings. -/
def bytesLT : Bytes → Bytes → Bool
  | _, [] => false
  | [], _ :: _ => true
  | a :: as, b :: bs => if a.val < b.val then true else if b.val < a.val then false else bytesLT as bs

/-- Insertion of a key into a sorted list of keys, before the first key that is
not smaller. -/
def insertSorted (k : Bytes) : List Bytes → List Bytes
  | [] => [k]
  | x :: xs => if bytesLT x k then x :: insertSorted k xs else k :: x :: xs

/-- The keys of the map, each once, sorted, as `Encode` collects them. -/
def Values.keys (v : Values) : List Bytes :=
  v.foldr (fun p acc => if p.1 ∈ acc then acc else insertSorted p.1 acc) []

/-- The `key=value` items `Encode` writes for one key. -/
def encodeKey (v : Values) (k : Bytes) : List Bytes :=
  (Values.values v k).map (fun x => QueryEscape k ++ byte '=' :: QueryEscape x)

/-- The `key=value` items `Encode` writes, key after key. -/
def encodeItems (v : Values) : List Bytes → List Bytes
  | [] => []
  | k :: ks => encodeKey v k ++ encodeItems v ks

/-- Items joined by `&`. -/
def joinAmp : List Bytes → Bytes
  | [] => []
  | [p] => p
  | p :: q :: ps => p ++ byte '&' :: joinAmp (q :: ps)

/-- Model of `Values.Encode`: the URL-encoded form, sorted by key. -/
def Values.Encode (v : Values) : Bytes := joinAmp (encodeItems v (Values.keys v))

/-- What the loop of `parseQuery` (Go 1.17 and later) does with one
`&`-separated piece: a piece holding a semicolon, an empty piece and a piece
whose key or value does not unescape are skipped; otherwise the piece is cut at
its first `=`. -/
def parsePiece (piece : Bytes) : Option (Bytes × Bytes) :=
  if byte ';' ∈ piece then none
  else if piece = [] then none
  else
    match QueryUnescape (cut (byte '=') piece).1, QueryUnescape (cut (byte '=') piece).2 with
    | some k, some x => some (k, x)
    | _, _ => none

/-- Model of `url.ParseQuery` with its error dropped, as `URL.Query` uses it:
the pairs of the pieces that parse, in order. -/
def ParseQuery (query : Bytes) : Values := (split (byte '&') query).filterMap parsePiece

/-- The struct `url.URL`. Every component holds the text as it is written in
the URL, which determines the decoded text Go keeps for the user, the host, the
path and the fragment. `User` is the userinfo before the last `@` of the
authority, `none` when there is none. -/
structure URL where
  Scheme : Bytes := []
  Opaque : Bytes := []
  User : Option Bytes := none
  Host : Bytes := []
  Path : Bytes := []
  OmitHost : Bool := false
  ForceQuery : Bool := false
  RawQuery : Bytes := []
  Fragment : Bytes := []
  deriving DecidableEq, Repr

/-- Model of `stringContainsCTLByte`. -/
def containsCTLByte (s : Bytes) : Bool := s.any (fun b => b.val < 32 || b.val = 127)

/-- The text before the first separator and the text from the separator on
(empty when there is no separator). -/
def breakAt (sep : Byte) : Bytes → Bytes × Bytes
  | [] => ([], [])
  | c :: cs => if c = sep then ([], c :: cs) else ((breakAt sep cs).1.cons c, (breakAt sep cs).2)

/-- The scan of `strings.LastIndex` for a one-byte separator, from index `i`
with the last index found so far. -/
def lastIndexFrom (sep : Byte) : Nat → Int → Bytes → Int
  | _, found, [] => found
  | i, found, c :: cs => lastIndexFrom sep (i + 1) (if c = sep then (i : Int) else found) cs

/-- Model of `strings.LastIndex` for a one-byte separator: -1 when absent. -/
def lastIndex (sep : Byte) (s : Bytes) : Int := lastIndexFrom sep 0 (-1) s

/-- Model of `strings.Index`: the index of the first occurrence of `pat`, -1
when there is none. -/
def index (pat : Bytes) : Bytes → Int
  | [] => if pat = [] then 0 else -1
  | c :: cs =>
    if pat.isPrefixOf (c :: cs) then 0
    else if index pat cs < 0 then -1
    else index pat cs + 1

/-- ASCII letters. -/
def isLetter (c : Byte) : Bool := (97 ≤ c.val && c.val ≤ 122) || (65 ≤ c.val && c.val ≤ 90)

/-- ASCII digits. -/
def isDigitByte (c : Byte) : Bool := 48 ≤ c.val && c.val ≤ 57

/-- Model of `strings.ToLower` on the bytes of a scheme, which are ASCII. -/
def toLower (s : Bytes) : Bytes :=
  s.map (fun c => if 65 ≤ c.val ∧ c.val ≤ 90 then c + 32 else c)

/-- The loop of `getScheme` on what is left of `raw` after the bytes `seen`. -/
def getSchemeFrom (raw seen : Bytes) : Bytes → Except Bytes (Bytes × Bytes)
  | [] => .ok ([], raw)
  | c :: cs =>
    if isLetter c then getSchemeFrom raw (seen ++ [c]) cs
    else if isDigitByte c ∨ c = byte '+' ∨ c = byte '-' ∨ c = byte '.' then
      if seen = [] then .ok ([], raw) else getSchemeFrom raw (seen ++ [c]) cs
    else if c = byte ':' then
      if seen = [] then .error (lit "missing protocol scheme") else .ok (seen, cs)
    else .ok ([], raw)

/-- Model of `getScheme`: the scheme and the text after its colon, or no scheme
and the whole text. -/
def getScheme (raw : Bytes) : Except Bytes (Bytes × Bytes) := getSchemeFrom raw [] raw

/-- Whether every `%` is followed by two hex digits: the one demand `unescape`
makes on a path, a fragment, a user name or a password. -/
def validEscapes : Bytes → Bool
  | [] => true
  | c :: rest =>
    if c = byte '%' then
      match rest with
      | a :: b :: rest2 => ishex a && ishex b && validEscapes rest2
      | _ => false
    else validEscapes rest

/-- The bytes `shouldEscape` leaves unescaped in a host. -/
def hostByte (c : Byte) : Bool :=
  isAlnum c || c ∈ lit "!$&()*+,;=:[]<>-_.~" || c = dquote || c.val = 39

/-- What `unescape` demands of a host: an escape is two hex digits and stands
for a byte from 0x80 on or is `%25`; any other byte is from 0x80 on or one a
host may hold unescaped. -/
def validHost : Bytes → Bool
  | [] => true
  | c :: rest =>
    if c = byte '%' then
      match rest with
      | a :: b :: rest2 =>
        ishex a && ishex b && (unhex a ≥ 8 || (a = byte '2' && b = byte '5')) && validHost rest2
      | _ => false
    else (c.val ≥ 128 || hostByte c) && validHost rest

/-- What `unescape` demands of the zone of an IP literal: an escape is two hex
digits and is `%25`, a space or a byte a host may hold unescaped; any other
byte is from 0x80 on or one a host may hold unescaped. -/
def validZone : Bytes → Bool
  | [] => true
  | c :: rest =>
    if c = byte '%' then
      match rest with
      | a :: b :: rest2 =>
        ishex a && ishex b &&
          ((a = byte '2' && b = byte '5') || unhex a * 16 + unhex b = 32 ||
            hostByte (Fin.ofNat (unhex a * 16 + unhex b))) && validZone rest2
      | _ => false
    else (c.val ≥ 128 || hostByte c) && validZone rest

/-- Model of `validOptionalPort`. -/
def validOptionalPort (port : Bytes) : Bool :=
  match port with
  | [] => true
  | c :: ds => c = byte ':' && ds.all isDigitByte

/-- Model of `parseHost`, yielding the host as written. An IP literal in
brackets is checked as far as its port, its escapes and its bytes go. Later
releases of Go check more: what is in brackets must be an IPv6 address and,
unless the setting `urlstrictcolons=0` is in force, a host outside brackets
holds one colon at most. These checks are not modelled. -/
def parseHost (host : Bytes) : Except Bytes Bytes :=
  if host.head? = some (byte '[') then
    if lastIndex (byte ']') host < 0 then .error (lit "missing ']' in host")
    else if ¬ validOptionalPort (host.drop ((lastIndex (byte ']') host).toNat + 1)) then
      .error (lit "invalid port after host")
    else if index (lit "%25") (host.take (lastIndex (byte ']') host).toNat) ≥ 0 then
      if validHost (host.take (index (lit "%25") (host.take (lastIndex (byte ']') host).toNat)).toNat)
          && validZone ((host.take (lastIndex (byte ']') host).toNat).drop
            (index (lit "%25") (host.take (lastIndex (byte ']') host).toNat)).toNat)
          && validHost (host.drop (lastIndex (byte ']') host).toNat) then .ok host
      else .error (lit "invalid host")
    else if ¬ validHost host then .error (lit "invalid host")
    else .ok host
  else if lastIndex (byte ':') host ≠ -1 ∧
      ¬ validOptionalPort (host.drop (lastIndex (byte ':') host).toNat) then
    .error (lit "invalid port after host")
  else if ¬ validHost host then .error (lit "invalid host")
  else .ok host

/-- Model of `validUserinfo`. -/
def validUserinfo (s : Bytes) : Bool :=
  s.all (fun c => isAlnum c || c ∈ lit "-._:~!$&()*+,;=%@" || c.val = 39)

/-- Model of `parseAuthority`: the userinfo, if any, and the host. -/
def parseAuthority (authority : Bytes) : Except Bytes (Option Bytes × Bytes) :=
  match parseHost (if lastIndex (byte '@') authority < 0 then authority
      else authority.drop ((lastIndex (byte '@') authority).toNat + 1)) with
  | .error e => .error e
  | .ok host =>
    if lastIndex (byte '@') authority < 0 then .ok (none, host)
    else if ¬ validUserinfo (authority.take (lastIndex (byte '@') authority).toNat) then
      .error (lit "net/url: invalid userinfo")
    else if ¬ (validEscapes (cut (byte ':') (authority.take (lastIndex (byte '@') authority).toNat)).1
        && validEscapes (cut (byte ':') (authority.take (lastIndex (byte '@') authority).toNat)).2) then
      .error (lit "invalid URL escape")
    else .ok (some (authority.take (lastIndex (byte '@') authority).toNat), host)

/-- Model of `URL.setPath`. -/
def setPath (u : URL) (p : Bytes) : Except Bytes URL :=
  if validEscapes p then .ok { u with Path := p } else .error (lit "invalid URL escape")

/-- Model of the function `parse` of net/url, called with `viaRequest` false on
a URL without fragment: the scheme, the query string, then an opaque rest, or
an authority and a path. -/
def parse (rawURL : Bytes) : Except Bytes URL :=
  if containsCTLByte rawURL then .error (lit "net/url: invalid control character in URL")
  else if rawURL = lit "*" then .ok { Path := lit "*" }
  else
    match getScheme rawURL with
    | .error e => .error e
    | .ok (scheme, rest0) =>
      let force : Bool := rest0.getLast? = some (byte '?') && rest0.count (byte '?') = 1
      let rest := if force then rest0.dropLast else (cut (byte '?') rest0).1
      let query := if force then [] else (cut (byte '?') rest0).2
      let u : URL := { Scheme := toLower scheme, ForceQuery := force, RawQuery := query }
      if ¬ rest.head? = some (byte '/') then
        if scheme ≠ [] then .ok { u with Opaque := rest }
        else if byte ':' ∈ (cut (byte '/') rest).1 then
          .error (lit "first path segment in URL cannot contain colon")
        else setPath u rest
      else if (scheme ≠ [] ∨ ¬ (lit "///").isPrefixOf rest) ∧ (lit "//").isPrefixOf rest then
        match parseAuthority (breakAt (byte '/') (rest.drop 2)).1 with
        | .error e => .error e
        | .ok (user, host) =>
          setPath { u with User := user, Host := host } (breakAt (byte '/') (rest.drop 2)).2
      else setPath { u with OmitHost := decide (scheme ≠ []) } rest

/-- Model of `url.Parse`: the fragment is cut off at the first `#` and the rest
goes through `parse`. The texts of the errors are abbreviated. -/
def Parse (rawURL : Bytes) : Except Bytes URL :=
  match parse (cut (byte '#') rawURL).1 with
  | .error e => .error e
  | .ok u =>
    if (cut (byte '#') rawURL).2 = [] then .ok u
    else if validEscapes (cut (byte '#') rawURL).2 then
      .ok { u with Fragment := (cut (byte '#') rawURL).2 }
    else .error (lit "invalid URL escape")

/-- Model of `URL.Query`. -/
def URL.Query (u : URL) : Values := ParseQuery u.RawQuery

end url

/-! ## net/http -/

namespace http

/-- The type `http.Header`, kept like `url.Values` as the list of (key, value)
pairs in order of insertion. -/
abbrev Header := List (Bytes × Bytes)

/-- Model of `Header.Add` for a key already in canonical form (as both keys
used by this package are). -/
def Header.Add (h : Header) (key value : Bytes) : Header := h ++ [(key, value)]

/-- Model of `Header.Values`: the values stored under a key, in order. -/
def Header.Values (h : Header) (key : Bytes) : List Bytes :=
  (h.filter (fun p => p.1 = key)).map Prod.snd

/-- The struct `http.Request` as far as this package sets it. -/
structure Request where
  Method : Bytes
  URL : url.URL
  Header : Header
  Body : Option Bytes
  deriving DecidableEq, Repr

/-- The struct `http.Response` as far as this package reads it. `Body` is what
`io.ReadAll` yields on the response body: its bytes, or the error of the
reader, a value of any type. -/
structure Response where
  StatusCode : Int
  Body : Except GoError Bytes
  deriving DecidableEq

/-- Model of `httpguts.IsTokenRune` on a byte: the characters of an HTTP token. -/
def isTokenByte (c : Byte) : Bool :=
  url.isAlnum c || c ∈ lit "!#$%&*+-.^_|~" || c.val = 39 || c.val = 96

/-- Model of `validMethod`. -/
def validMethod (method : Bytes) : Bool := method.length > 0 && method.all isTokenByte

/-- Model of `hasPort`. -/
def hasPort (s : Bytes) : Bool := url.lastIndex (byte ':') s > url.lastIndex (byte ']') s

/-- Model of `removeEmptyPort`: the colon that ends a host with an empty port is
dropped. (No escape of a host stands for a colon or a bracket, so the written
host and the decoded one lose the same colon.) -/
def removeEmptyPort (host : Bytes) : Bytes :=
  if hasPort host then
    if host.getLast? = some (byte ':') then host.dropLast else host
  else host

/-- Model of `http.NewRequest`: an empty method means GET, an invalid method or
a URL that does not parse is an error; an empty port is removed from the host
of the parsed URL and the request starts with no header. The texts of the
errors are abbreviated. -/
def NewRequest (method rawURL : Bytes) (body : Option Bytes) : Except GoError Request :=
  let method := if method = [] then lit "GET" else method
  if ¬ validMethod method then .error (.newRequest (lit "net/http: invalid method"))
  else
    match url.Parse rawURL with
    | .error e => .error (.newRequest e)
    | .ok u =>
      .ok { Method := method, URL := { u with Host := removeEmptyPort u.Host }, Header := [],
            Body := body }

end http

/-! ## grist.go -/

/-- What a Go function of this package returns, `(value, error)`, together with
the requests it handed to the HTTP transport, in order. -/
structure Result (α : Type) where
  value : α
  err : Option GoError
  calls : List http.Request
  deriving DecidableEq

/-- The type `json.RawMessage`: a byte slice, `none` when nil. -/
abbrev RawMessage := Option Bytes

/-- The type `DocumentID` of documents.go. -/
abbrev DocumentID := Bytes

/-- The type `TableID` of tables.go. -/
abbrev TableID := Bytes

/-- The struct `Client` of grist.go. The field `Do` stands for the field
`Client *http.Client` through the one method called on it, `Client.Do`: the
response to a request, or an error. -/
structure Client where
  Token : Bytes
  URL : Bytes
  Do : http.Request → Except GoError http.Response
  GlobalFilter : RawMessage

/-- The struct `GristRequest` of grist.go. -/
structure GristRequest where
  Path : Bytes := []
  Method : Bytes := []
  Document : DocumentID := []
  Table : TableID := []
  Filter : RawMessage := none
  Data : Option Bytes := none
  deriving DecidableEq, Repr

/-- The type `GristRequestOpt` of grist.go. -/
abbrev GristRequestOpt := GristRequest → GristRequest

/-- The option `SetDocument` of grist.go. -/
def SetDocument (d : DocumentID) : GristRequestOpt := fun r => { r with Document := d }

/-- The option `SetTable` of grist.go. -/
def SetTable (t : TableID) : GristRequestOpt := fun r => { r with Table := t }

/-- The option `SetFilter` of grist.go. -/
def SetFilter (f : RawMessage) : GristRequestOpt := fun r => { r with Filter := f }

/-- The method `Client.httpRequest` of grist.go. -/
def Client.httpRequest (c : Client) (request : GristRequest) : Result RawMessage :=
  let target := Sprintf (lit "%s%s") [.s c.URL, .s request.Path]
  let token := Sprintf (lit "Bearer %s") [.s c.Token]
  match http.NewRequest request.Method target request.Data with
  | .error err => ⟨none, some err, []⟩
  | .ok req =>
    let req := { req with Header := http.Header.Add req.Header (lit "Content-Type") (lit "application/json") }
    let q := req.URL.Query
    let q := match c.GlobalFilter with
      | some g => url.Values.Add q (lit "filter") g
      | none => q
    let q := match request.Filter with
      | some f => url.Values.Add (url.Values.Del q (lit "filter")) (lit "filter") f
      | none => q
    let req := { req with URL := { req.URL with RawQuery := url.Values.Encode q } }
    let req := { req with Header := http.Header.Add req.Header (lit "Authorization") token }
    match c.Do req with
    | .error err => ⟨none, some err, [req]⟩
    | .ok resp =>
      match resp.Body with
      | .error err => ⟨none, some err, [req]⟩
      | .ok body =>
        if resp.StatusCode ≠ 200 then
          ⟨none, some (.grist { StatusCode := resp.StatusCode, Details := body }), [req]⟩
        else ⟨some body, none, [req]⟩

/-- The query parameters `Client.httpRequest` sends (lines 122 to 129 of
grist.go, in isolation), from the parameters `q` of the parsed URL: the global
filter is added; a request filter replaces every `filter` value. -/
def Client.query (c : Client) (request : GristRequest) (q : url.Values) : url.Values :=
  let q := match c.GlobalFilter with
    | some g => url.Values.Add q (lit "filter") g
    | none => q
  match request.Filter with
  | some f => url.Values.Add (url.Values.Del q (lit "filter")) (lit "filter") f
  | none => q

/-- The request `Client.httpRequest` hands to the transport (lines 110 to 132 of
grist.go, in isolation) when `url.Parse` yields `u` for the target: the request
of `http.NewRequest` with the two headers and the new query string. -/
def Client.outgoing (c : Client) (request : GristRequest) (u : url.URL) : http.Request :=
  { Method := if request.Method = [] then lit "GET" else request.Method,
    URL := { u with Host := http.removeEmptyPort u.Host,
                    RawQuery := url.Values.Encode (c.query request u.Query) },
    Header := [(lit "Content-Type", lit "application/json"),
      (lit "Authorization", lit "Bearer " ++ c.Token)],
    Body := request.Data }

/-- What `Client.httpRequest` makes of the answer of the transport (lines 134 to
153 of grist.go, in isolation). -/
def Client.answer (req : http.Request) (r : Except GoError http.Response) : Result RawMessage :=
  match r with
  | .error err => ⟨none, some err, [req]⟩
  | .ok resp =>
    match resp.Body with
    | .error err => ⟨none, some err, [req]⟩
    | .ok body =>
      if resp.StatusCode ≠ 200 then
        ⟨none, some (.grist { StatusCode := resp.StatusCode, Details := body }), [req]⟩
      else ⟨some body, none, [req]⟩

/-! ## records.go -/

/-- The method `Client.getRecords` of records.go. -/
def Client.getRecords (c : Client) (r : GristRequest) : Result RawMessage := c.httpRequest r

/-- The method `Client.GetRecordsWithOptions` of records.go. -/
def Client.GetRecordsWithOptions (c : Client) (opts : List GristRequestOpt) : Result RawMessage :=
  let r : GristRequest := opts.foldl (fun r opt => opt r) {}
  let r := { r with Path := Sprintf (lit "/api/docs/%s/tables/%s/records") [.s r.Document, .s r.Table] }
  c.getRecords r

/-- The method `Client.GetRecords` of records.go. -/
def Client.GetRecords (c : Client) (document : DocumentID) (table : TableID) : Result RawMessage :=
  let request : GristRequest :=
    { Path := Sprintf (lit "/api/docs/%s/tables/%s/records") [.s document, .s table],
      Method := lit "GET" }
  c.getRecords request

/-- The method `Client.GetFilteredRecords` of records.go. -/
def Client.GetFilteredRecords (c : Client) (document : DocumentID) (table : TableID)
    (filter : RawMessage) : Result RawMessage :=
  let request : GristRequest :=
    { Path := Sprintf (lit "/api/docs/%s/tables/%s/records") [.s document, .s table],
      Method := lit "GET" }
  let request := match filter with
    | some f => { request with Filter := some f }
    | none => request
  c.getRecords request

/-- The method `Client.CreateRecord` of records.go. -/
def Client.CreateRecord (c : Client) (document : DocumentID) (table : TableID)
    (r : Option Bytes) : Result RawMessage :=
  let path := Sprintf (lit "/api/docs/%s/tables/%s/records") [.s document, .s table]
  let request : GristRequest := { Path := path, Method := lit "POST", Data := r }
  c.httpRequest request

/-- The request model `Client.GetRecordsWithOptions` hands to `getRecords` (lines
25 to 31 of records.go, in isolation). -/
def optionsRequest (opts : List GristRequestOpt) : GristRequest :=
  let r : GristRequest := opts.foldl (fun r opt => opt r) {}
  { r with Path := Sprintf (lit "/api/docs/%s/tables/%s/records") [.s r.Document, .s r.Table] }

/-- The request model `Client.GetRecords` hands to `getRecords` (lines 39 to 42 of
records.go, in isolation). -/
def recordsRequest (document : DocumentID) (table : TableID) : GristRequest :=
  { Path := Sprintf (lit "/api/docs/%s/tables/%s/records") [.s document, .s table],
    Method := lit "GET" }

/-! ## encoding/json

The output of `json.Marshal` for the types of this package, written type by
type: an object is `{` fields separated by `,` `}`, a field is its quoted name,
`:` and its value; a field tagged `omitempty` is left out when its value is the
zero value. -/

namespace json

/-- The table `hex` of encoding/json indexed by a nibble. -/
def hex (n : Nat) : Byte := (lit "0123456789abcdef").getD n 0

/-- The escape `\u00XX` of one byte. -/
def escapeU (b : Byte) : Bytes := lit "\\u00" ++ [hex (b.val / 16), hex (b.val % 16)]

/-- What `appendString` (with HTML escaping, the default of `Marshal`) writes for
a byte below 0x80. -/
def quoteASCII (b : Byte) : Bytes :=
  if b = backslash ∨ b = dquote then [backslash, b]
  else if b.val = 8 then lit "\\b"
  else if b.val = 12 then lit "\\f"
  else if b.val = 10 then lit "\\n"
  else if b.val = 13 then lit "\\r"
  else if b.val = 9 then lit "\\t"
  else if b.val < 32 ∨ b = byte '<' ∨ b = byte '>' ∨ b = byte '&' then escapeU b
  else [b]

/-- A continuation byte of UTF-8. -/
def isCont (b : Byte) : Bool := 128 ≤ b.val && b.val ≤ 191

/-- What the encoder writes for a byte that starts no valid UTF-8 sequence: the
character U+FFFD in UTF-8. (Older releases of Go write the six bytes of the
escape `\ufffd` in its place.) -/
def replacement : Bytes := [239, 191, 189]

/-- The body of a JSON string as `appendString` writes it: ASCII is escaped by
`quoteASCII`, a valid UTF-8 sequence is copied (U+2028 and U+2029 are escaped),
and a byte that starts no valid sequence becomes `replacement`. -/
def quoteBody : Bytes → Bytes
  | [] => []
  | [a] => if a.val < 128 then quoteASCII a else replacement
  | [a, b] =>
    if a.val < 128 then quoteASCII a ++ quoteBody [b]
    else if 194 ≤ a.val ∧ a.val ≤ 223 ∧ isCont b then [a, b]
    else replacement ++ quoteBody [b]
  | [a, b, c] =>
    if a.val < 128 then quoteASCII a ++ quoteBody [b, c]
    else if 194 ≤ a.val ∧ a.val ≤ 223 ∧ isCont b then [a, b] ++ quoteBody [c]
    else if 224 ≤ a.val ∧ a.val ≤ 239 ∧ isCont b ∧ isCont c ∧
        (a.val = 224 → 160 ≤ b.val) ∧ (a.val = 237 → b.val ≤ 159) then
      if a.val = 226 ∧ b.val = 128 ∧ c.val = 168 then lit "\\u2028"
      else if a.val = 226 ∧ b.val = 128 ∧ c.val = 169 then lit "\\u2029"
      else [a, b, c]
    else replacement ++ quoteBody [b, c]
  | a :: b :: c :: d :: rest =>
    if a.val < 128 then quoteASCII a ++ quoteBody (b :: c :: d :: rest)
    else if 194 ≤ a.val ∧ a.val ≤ 223 ∧ isCont b then [a, b] ++ quoteBody (c :: d :: rest)
    else if 224 ≤ a.val ∧ a.val ≤ 239 ∧ isCont b ∧ isCont c ∧
        (a.val = 224 → 160 ≤ b.val) ∧ (a.val = 237 → b.val ≤ 159) then
      (if a.val = 226 ∧ b.val = 128 ∧ c.val = 168 then lit "\\u2028"
       else if a.val = 226 ∧ b.val = 128 ∧ c.val = 169 then lit "\\u2029"
       else [a, b, c]) ++ quoteBody (d :: rest)
    else if 240 ≤ a.val ∧ a.val ≤ 244 ∧ isCont b ∧ isCont c ∧ isCont d ∧
        (a.val = 240 → 144 ≤ b.val) ∧ (a.val = 244 → b.val ≤ 143) then
      [a, b, c, d] ++ quoteBody rest
    else replacement ++ quoteBody (b :: c :: d :: rest)

/-- A Go string as a JSON string. -/
def string (s : Bytes) : Bytes := dquote :: quoteBody s ++ [dquote]

/-- A Go bool as JSON. -/
def bool (b : Bool) : Bytes := if b then lit "true" else lit "false"

/-- A Go int as JSON. -/
def int (n : Int) : Bytes := formatInt n

/-- Values separated by commas. -/
def commas : List Bytes → Bytes
  | [] => []
  | [x] => x
  | x :: y :: rest => x ++ byte ',' :: commas (y :: rest)

/-- A JSON array of already encoded values. -/
def array (items : List Bytes) : Bytes := byte '[' :: commas items ++ [byte ']']

/-- A field of an object: its name and its encoded value. -/
def field (name : String) (value : Bytes) : Bytes := string (lit name) ++ byte ':' :: value

/-- A JSON object of already encoded fields; `none` is a field left out by
`omitempty`. -/
def object (fields : List (Option Bytes)) : Bytes :=
  lbrace :: commas (fields.filterMap id) ++ [rbrace]

/-- The encoded values of a list, in order, or the error of the first value that
does not encode. -/
def encodeAll {α : Type} (enc : α → Except GoError Bytes) : List α → Except GoError (List Bytes)
  | [] => .ok []
  | x :: xs =>
    match enc x with
    | .error e => .error e
    | .ok b =>
      match encodeAll enc xs with
      | .error e => .error e
      | .ok bs => .ok (b :: bs)

/-- A Go slice as JSON: `null` for a nil slice, else the array of its encoded
elements. -/
def slice {α : Type} (enc : α → Except GoError Bytes) : Option (List α) → Except GoError Bytes
  | none => .ok (lit "null")
  | some xs =>
    match encodeAll enc xs with
    | .error e => .error e
    | .ok bs => .ok (array bs)

end json

/-- The length of a Go slice that may be nil. -/
def len {α : Type} (s : Option (List α)) : Nat :=
  match s with
  | none => 0
  | some xs => xs.length

/-- The elements of a Go slice that may be nil, as a range loop visits them. -/
def elems {α : Type} (s : Option (List α)) : List α :=
  match s with
  | none => []
  | some xs => xs

/-! ## columns.go -/

/-- The struct `ColumnField` of columns.go; `Type_` is its field `Type`.
`RecalcDeps` is a plain list: the field is tagged `omitempty`, so a nil and an
empty slice encode alike. -/
structure ColumnField where
  Label : Bytes := []
  Type_ : Bytes := []
  Formula : Bytes := []
  IsFormula : Bool := false
  WidgetOptions : Bytes := []
  UntieColIDFromLabel : Bool := false
  RecalcWhen : Int := 0
  VisibleCol : Int := 0
  RecalcDeps : List Int := []
  deriving DecidableEq, Repr

/-- The struct `Column` of columns.go. -/
structure Column where
  ID : Bytes := []
  Fields : ColumnField := {}
  deriving DecidableEq, Repr

/-- The encoding of the alias of `ColumnField` that `MarshalJSON` hands to
`json.Marshal`: the fields by their tags, in order of declaration. -/
def ColumnField.encodeAlias (f : ColumnField) : Bytes :=
  json.object [
    some (json.field "label" (json.string f.Label)),
    some (json.field "type" (json.string f.Type_)),
    if f.Formula = [] then none else some (json.field "formula" (json.string f.Formula)),
    if f.IsFormula then some (json.field "isFormula" (json.bool true)) else none,
    if f.WidgetOptions = [] then none
      else some (json.field "widgetOptions" (json.string f.WidgetOptions)),
    if f.UntieColIDFromLabel then some (json.field "untieColIdFromLabel" (json.bool true))
      else none,
    some (json.field "recalcWhen" (json.int f.RecalcWhen)),
    if f.VisibleCol = 0 then none else some (json.field "visibleCol" (json.int f.VisibleCol)),
    if f.RecalcDeps = [] then none
      else some (json.field "recalcDeps" (json.array (f.RecalcDeps.map json.int)))]

/-- The method `ColumnField.MarshalJSON` of columns.go. -/
def ColumnField.MarshalJSON (f : ColumnField) : Except GoError Bytes :=
  if f.IsFormula ∧ f.Formula = [] then
    .error (.errorString (lit "formula must be set for formula field"))
  else .ok f.encodeAlias

/-- What `json.Marshal` writes for a `Column` that is an element of a slice: the
element is addressable, so `Fields` goes through `MarshalJSON`, whose error comes
back wrapped in a `json.MarshalerError`. -/
def Column.encode (col : Column) : Except GoError Bytes :=
  match col.Fields.MarshalJSON with
  | .error e => .error (.marshaler e)
  | .ok fields =>
    .ok (json.object [some (json.field "id" (json.string col.ID)),
      some (json.field "fields" fields)])

/-- What `json.Marshal` writes for the struct `Columns` of columns.go. -/
def Columns.encode (columns : Option (List Column)) : Except GoError Bytes :=
  match json.slice Column.encode columns with
  | .error e => .error e
  | .ok cols => .ok (json.object [some (json.field "columns" cols)])

/-! ## tables.go -/

/-- The struct `TableFields` of tables.go. -/
structure TableFields where
  TableRef : Int := 0
  OnDemand : Bool := false
  deriving DecidableEq, Repr

/-- The struct `Table` of tables.go. -/
structure Table where
  ID : TableID := []
  Columns : Option (List Column) := none
  Fields : TableFields := {}
  deriving DecidableEq, Repr

/-- What `json.Marshal` writes for a `Table`. -/
def Table.encode (t : Table) : Except GoError Bytes :=
  match json.slice Column.encode t.Columns with
  | .error e => .error e
  | .ok cols =>
    .ok (json.object [some (json.field "id" (json.string t.ID)),
      some (json.field "columns" cols),
      some (json.field "fields" (json.object [
        some (json.field "tableRef" (json.int t.Fields.TableRef)),
        some (json.field "onDemand" (json.bool t.Fields.OnDemand))]))])

/-- What `json.Marshal` writes for the struct `Tables` of tables.go. -/
def Tables.encode (tables : Option (List Table)) : Except GoError Bytes :=
  match json.slice Table.encode tables with
  | .error e => .error e
  | .ok ts => .ok (json.object [some (json.field "tables" ts)])

/-- The method `Client.writeColumns` of columns.go. -/
def Client.writeColumns (c : Client) (method : Bytes) (document : DocumentID) (table : Table)
    (columns : Option (List Column)) : Result RawMessage :=
  match Columns.encode columns with
  | .error err => ⟨none, some err, []⟩
  | .ok data =>
    let request : GristRequest :=
      { Path := Sprintf (lit "/api/docs/%s/tables/%s/columns") [.s document, .s table.ID],
        Method := method,
        Data := some data }
    c.httpRequest request

/-- The method `Client.GetColumns` of columns.go. -/
def Client.GetColumns (c : Client) (document : DocumentID) (table : Table) : Result RawMessage :=
  let request : GristRequest :=
    { Path := Sprintf (lit "/api/docs/%s/tables/%s/columns") [.s document, .s table.ID],
      Method := lit "GET" }
  c.httpRequest request

/-- The method `Client.CreateColumns` of columns.go. -/
def Client.CreateColumns (c : Client) (document : DocumentID) (table : Table)
    (columns : Option (List Column)) : Result RawMessage :=
  c.writeColumns (lit "POST") document table columns

/-- The method `Client.PatchColumns` of columns.go. -/
def Client.PatchColumns (c : Client) (document : DocumentID) (table : Table)
    (columns : Option (List Column)) : Result RawMessage :=
  c.writeColumns (lit "PATCH") document table columns

/-- The method `Client.ListTables` of tables.go. -/
def Client.ListTables (c : Client) (document : DocumentID) : Result RawMessage :=
  let request : GristRequest :=
    { Path := Sprintf (lit "/api/docs/%s/tables") [.s document], Method := lit "GET" }
  c.httpRequest request

/-- The method `Client.writeTable` of tables.go. -/
def Client.writeTable (c : Client) (method : Bytes) (document : DocumentID)
    (tables : Option (List Table)) : Result RawMessage :=
  match Tables.encode tables with
  | .error err => ⟨none, some err, []⟩
  | .ok data =>
    let request : GristRequest :=
      { Path := Sprintf (lit "/api/docs/%s/tables") [.s document],
        Method := method,
        Data := some data }
    c.httpRequest request

/-- The loop of `Client.createTables`: whether some table has no column. -/
def anyWithoutColumns : List Table → Bool
  | [] => false
  | v :: rest => if len v.Columns < 1 then true else anyWithoutColumns rest

/-- The method `Client.createTables` of tables.go. -/
def Client.createTables (c : Client) (document : DocumentID) (tables : Option (List Table)) :
    Result RawMessage :=
  if anyWithoutColumns (elems tables) then
    ⟨none, some (.errorString (lit "columns required to create table")), []⟩
  else c.writeTable (lit "POST") document tables

/-- The method `Client.CreateTables` of tables.go. -/
def Client.CreateTables (c : Client) (document : DocumentID) (tables : Option (List Table)) :
    Result RawMessage :=
  c.createTables document tables

/-! ## documents.go -/

/-- The type `WorkspaceID` of workspaces.go. -/
abbrev WorkspaceID := Int

/-- The struct `NewDocRequest` of documents.go. -/
structure NewDocRequest where
  Name : Bytes
  IsPinned : Bool
  deriving DecidableEq, Repr

/-- What `json.Marshal` writes for a `NewDocRequest`; it cannot fail. -/
def NewDocRequest.encode (doc : NewDocRequest) : Bytes :=
  json.object [some (json.field "name" (json.string doc.Name)),
    some (json.field "isPinned" (json.bool doc.IsPinned))]

/-- The scan of `bytes.Replace`: every non-overlapping occurrence of the
non-empty pattern `old`, from the left, is replaced by `new`. The first argument
bounds the number of steps; the length of the text is enough. -/
def replaceLoop (old new : Bytes) : Nat → Bytes → Bytes
  | 0, s => s
  | _ + 1, [] => []
  | fuel + 1, c :: cs =>
    if old.isPrefixOf (c :: cs) then new ++ replaceLoop old new fuel ((c :: cs).drop old.length)
    else c :: replaceLoop old new fuel cs

/-- Model of `bytes.ReplaceAll` for a non-empty pattern, the only use in this
package. The result is a nil slice when the text is empty (a copy of nothing),
and a fresh slice otherwise. An empty pattern leaves the text unchanged here. -/
def bytes.ReplaceAll (s old new : Bytes) : RawMessage :=
  if s = [] then none
  else if old = [] then some s
  else some (replaceLoop old new s.length s)

/-- The conversion `string(b)` of a byte slice that may be nil. -/
def stringOf (b : RawMessage) : Bytes := b.getD []

/-- The method `Client.createDocument` of documents.go. -/
def Client.createDocument (c : Client) (workspace : WorkspaceID) (name : Bytes)
    (isPinned : Bool) : Result RawMessage :=
  let doc : NewDocRequest := { Name := name, IsPinned := isPinned }
  let data := doc.encode
  let request : GristRequest :=
    { Path := Sprintf (lit "/api/workspaces/%d/docs") [.d workspace],
      Method := lit "POST",
      Data := some data }
  let resp := c.httpRequest request
  match resp.err with
  | some err => ⟨none, some err, resp.calls⟩
  | none => ⟨bytes.ReplaceAll (stringOf resp.value) (lit "\"") [], none, resp.calls⟩

/-- The method `Client.CreateDocument` of documents.go. -/
def Client.CreateDocument (c : Client) (workspace : WorkspaceID) (name : Bytes)
    (isPinned : Bool) : Result Bytes :=
  let id := c.createDocument workspace name isPinned
  match id.err with
  | some err => ⟨[], some err, id.calls⟩
  | none => ⟨stringOf id.value, none, id.calls⟩

/-- The method `Client.GetDocument` of documents.go. -/
def Client.GetDocument (c : Client) (id : Bytes) : Result RawMessage :=
  c.httpRequest { Path := Sprintf (lit "/api/docs/%s") [.s id], Method := lit "GET" }

/-- The method `Client.DeleteDocument` of documents.go. -/
def Client.DeleteDocument (c : Client) (id : Bytes) : Result RawMessage :=
  c.httpRequest { Path := Sprintf (lit "/api/docs/%s") [.s id], Method := lit "DELETE" }

/-! ## strconv -/

namespace strconv

/-- The constant `IntSize`, the width of `int`: that of a 64-bit platform. -/
def IntSize : Nat := 64

/-- Whether the text starts with a sign. -/
def hasSign (s : Bytes) : Bool := s.head? = some (byte '-') || s.head? = some (byte '+')

/-- Whether the text starts with a minus sign. -/
def isNeg (s : Bytes) : Bool := s.head? = some (byte '-')

/-- The text without its leading sign, if it has one. -/
def unsigned (s : Bytes) : Bytes := if hasSign s then s.tail else s

/-- The loop of the fast path of `Atoi`: `ch -= 48` on a byte wraps around, so
`ch > 9` afterwards exactly when the byte is no digit; the loop then gives up.
The texts of the fast path are too short for `n` to overflow. -/
def fastLoop : Int → Bytes → Option Int
  | n, [] => some n
  | n, ch :: rest =>
    if (ch - 48).val > 9 then none else fastLoop (n * 10 + (ch - 48).val) rest

/-- The loop of `ParseUint` for base 10 and 64 bits, on the unsigned 64-bit
accumulator `n`: a byte that is no digit ends it with `ErrSyntax` (flag
`false`) and value 0, an overflow with `ErrRange` (flag `true`) and the
largest value. -/
def uintLoop : Nat → Bytes → Nat × Option Bool
  | n, [] => (n, none)
  | n, c :: rest =>
    if 48 ≤ c.val ∧ c.val ≤ 57 then
      if n ≥ (2 ^ 64 - 1) / 10 + 1 then (2 ^ 64 - 1, some true)
      else if (n * 10 + (c.val - 48)) % 2 ^ 64 < n * 10 then (2 ^ 64 - 1, some true)
      else uintLoop ((n * 10 + (c.val - 48)) % 2 ^ 64) rest
    else (0, some false)

/-- Model of `ParseUint(s, 10, 64)`. -/
def ParseUint (s : Bytes) : Nat × Option Bool :=
  if s = [] then (0, some false) else uintLoop 0 s

/-- Model of `ParseInt(s, 10, 0)`: the value and, on failure, the flag of the
sentinel. A text out of range yields the nearest bound of `int`. -/
def ParseInt (s : Bytes) : Int × Option Bool :=
  if s = [] then (0, some false)
  else
    match ParseUint (unsigned s) with
    | (_, some false) => (0, some false)
    | (un, _) =>
      if ¬ isNeg s ∧ un ≥ 2 ^ (IntSize - 1) then (2 ^ (IntSize - 1) - 1, some true)
      else if isNeg s ∧ un > 2 ^ (IntSize - 1) then (-(2 ^ (IntSize - 1)), some true)
      else (if isNeg s then -(un : Int) else (un : Int), none)

/-- Model of `strconv.Atoi`: a short text goes through the fast path, any other
through `ParseInt`. -/
def Atoi (s : Bytes) : Int × Option GoError :=
  if (IntSize = 32 ∧ 0 < s.length ∧ s.length < 10) ∨
      (IntSize = 64 ∧ 0 < s.length ∧ s.length < 19) then
    if hasSign s ∧ (unsigned s).length < 1 then (0, some (.numError s false))
    else
      match fastLoop 0 (unsigned s) with
      | none => (0, some (.numError s false))
      | some n => (if isNeg s then -n else n, none)
  else
    match ParseInt s with
    | (n, some flag) => (n, some (.numError s flag))
    | (n, none) => (n, none)

end strconv

/-- The value of a run of decimal digits read after the value `n`. -/
def digitsFrom (n : Nat) (ds : Bytes) : Nat := ds.foldl (fun m c => m * 10 + (c.val - 48)) n

/-- Whether the byte is a decimal digit. -/
def isDigit (c : Byte) : Bool := 48 ≤ c.val && c.val ≤ 57

/-- The reading of a text as the decimal text of an integer, optionally signed:
one sign at most, `+` or `-`, then one decimal digit or more, and nothing else;
`none` for every other text. -/
def decimalInt (s : Bytes) : Option Int :=
  if strconv.unsigned s ≠ [] ∧ (strconv.unsigned s).all isDigit then
    some (if strconv.isNeg s then -(digitsFrom 0 (strconv.unsigned s) : Int)
      else (digitsFrom 0 (strconv.unsigned s) : Int))
  else none

/-! ## workspaces.go -/

/-- The struct `WorkspaceName` of workspaces.go. -/
structure WorkspaceName where
  Name : Bytes
  deriving DecidableEq, Repr

/-- What `json.Marshal` writes for a `WorkspaceName`; it cannot fail. The field
is tagged `omitempty`. -/
def WorkspaceName.encode (wn : WorkspaceName) : Bytes :=
  json.object [if wn.Name = [] then none else some (json.field "name" (json.string wn.Name))]

/-- The method `Client.CreateWorkspace` of workspaces.go. -/
def Client.CreateWorkspace (c : Client) (orgID : Int) (name : Bytes) : Result Int :=
  let wn : WorkspaceName := { Name := name }
  let data := wn.encode
  let request : GristRequest :=
    { Path := Sprintf (lit "/api/orgs/%d/workspaces") [.d orgID],
      Method := lit "POST",
      Data := some data }
  let id := c.httpRequest request
  match id.err with
  | some err => ⟨0, some err, id.calls⟩
  | none => ⟨(strconv.Atoi (stringOf id.value)).1, (strconv.Atoi (stringOf id.value)).2, id.calls⟩

/-- The method `Client.GetWorkspace` of workspaces.go. -/
def Client.GetWorkspace (c : Client) (id : WorkspaceID) : Result RawMessage :=
  c.httpRequest { Path := Sprintf (lit "/api/workspaces/%d") [.d id], Method := lit "GET" }

/-! ## The wrapper shape of request bodies -/

/-- JSON white space. -/
def isSpace (b : Byte) : Bool := b.val = 32 || b.val = 9 || b.val = 10 || b.val = 13

/-- The text after leading white space. -/
def skipSpace (s : Bytes) : Bytes := s.dropWhile isSpace

/-- The text after a leading `p`, when the text starts with `p`. -/
def after (p s : Bytes) : Option Bytes :=
  if p.isPrefixOf s then some (s.drop p.length) else none

/-- Whether the text, read backwards, is white space, `}`, white space, `]`. -/
def closesList (s : Bytes) : Bool :=
  match after [rbrace] (skipSpace s.reverse) with
  | none => false
  | some t => (after [byte ']'] (skipSpace t)).isSome

/-- The shape the specification gives to a wrapped body, `{"name": [...]}`: a
JSON object that opens with the field `name` whose value opens a list, and that
ends by closing the list and the object. -/
def wrapsList (name body : Bytes) : Bool :=
  match after [lbrace] (skipSpace body) with
  | none => false
  | some s1 =>
    match after (json.string name) (skipSpace s1) with
    | none => false
    | some s2 =>
      match after [byte ':'] (skipSpace s2) with
      | none => false
      | some s3 =>
        match after [byte '['] (skipSpace s3) with
        | none => false
        | some s4 => closesList s4

/-! ## Sample values -/

/-- A transport that answers every request with the given status and body. -/
def fixedServer (status : Int) (body : Bytes) : http.Request → Except GoError http.Response :=
  fun _ => .ok ⟨status, .ok body⟩

/-- A client of the server `http://grist.test` with token `secret`. -/
def sampleClient (globalFilter : RawMessage) (status : Int) (body : Bytes) : Client :=
  { Token := lit "secret", URL := lit "http://grist.test",
    Do := fixedServer status body, GlobalFilter := globalFilter }

/-- A client of the same server with no API key and no global filter. -/
def anonClient (status : Int) (body : Bytes) : Client :=
  { Token := [], URL := lit "http://grist.test",
    Do := fixedServer status body, GlobalFilter := none }

/-- The client `sampleClient` with the base URL written with an empty port. -/
def emptyPortClient (globalFilter : RawMessage) (status : Int) (body : Bytes) : Client :=
  { Token := lit "secret", URL := lit "http://grist.test:",
    Do := fixedServer status body, GlobalFilter := globalFilter }

/-- The URL `http://grist.test` followed by a path and a query string. -/
def testURL (path query : Bytes) : url.URL :=
  { Scheme := lit "http", Host := lit "grist.test", Path := path, RawQuery := query }

/-- The filter `{"id": [1]}` of the test suite. -/
def idFilter : Bytes := lit "\x7b\"id\": [1]\x7d"

/-- One record, not wrapped: `{"fields": {"foo": "test"}}`. -/
def oneRecord : Bytes := lit "\x7b\"fields\": \x7b\"foo\": \"test\"\x7d\x7d"

/-- The body the test suite posts: `{"records":[{"id":0,"fields":[{"foo":"test"}]}]}`. -/
def wrappedRecords : Bytes :=
  lit "\x7b\"records\":[\x7b\"id\":0,\"fields\":[\x7b\"foo\":\"test\"\x7d]\x7d]\x7d"

/-- A column marked as a formula column without a formula. -/
def emptyFormulaColumn : Column := { ID := lit "total", Fields := { IsFormula := true } }

/-- A plain text column. -/
def textColumn : Column := { ID := lit "name", Fields := { Label := lit "Name", Type_ := lit "Text" } }

/-! ## Lemmas: formatting -/

theorem Sprintf_two_strings (a b : Bytes) : Sprintf (lit "%s%s") [.s a, .s b] = a ++ b := by
  simp [Sprintf, lit, formatArg, byte, Fin.ofNat]

theorem Sprintf_bearer (t : Bytes) : Sprintf (lit "Bearer %s") [.s t] = lit "Bearer " ++ t := by
  simp [Sprintf, lit, formatArg, byte, Fin.ofNat]

namespace url

/-! ## Lemmas: query escaping round trip -/

set_option maxRecDepth 100000 in
theorem plain_byte (b : Byte) : shouldEscape b = false → b ≠ byte '%' ∧ b ≠ byte '+' := by
  revert b; decide

set_option maxRecDepth 100000 in
theorem hex_byte (b : Byte) :
    ishex (upperhex (b.val / 16)) = true ∧ ishex (upperhex (b.val % 16)) = true ∧
      (Fin.ofNat (unhex (upperhex (b.val / 16)) * 16 + unhex (upperhex (b.val % 16))) : Byte) = b := by
  revert b; decide

set_option maxRecDepth 100000 in
theorem escapeByte_clean (b : Byte) :
    byte '&' ∉ escapeByte b ∧ byte '=' ∉ escapeByte b ∧ byte ';' ∉ escapeByte b := by
  revert b; decide

theorem unescape_plain (b : Byte) (rest : Bytes) (h1 : b ≠ byte '%') (h2 : b ≠ byte '+') :
    QueryUnescape (b :: rest) = (QueryUnescape rest).map (List.cons b) := by
  rcases rest with _ | ⟨a, _ | ⟨b, r⟩⟩ <;> simp [QueryUnescape, h1, h2]

theorem unescape_plus (rest : Bytes) :
    QueryUnescape (byte '+' :: rest) = (QueryUnescape rest).map (List.cons (byte ' ')) := by
  have hp : byte '+' ≠ byte '%' := by decide
  rcases rest with _ | ⟨a, _ | ⟨b, r⟩⟩ <;> simp [QueryUnescape, hp]

theorem unescape_percent (a b : Byte) (rest : Bytes) (ha : ishex a = true) (hb : ishex b = true) :
    QueryUnescape (byte '%' :: a :: b :: rest) =
      (QueryUnescape rest).map (List.cons (Fin.ofNat (unhex a * 16 + unhex b))) := by
  rw [QueryUnescape]; simp [ha, hb]

theorem unescape_escapeByte (b : Byte) (rest : Bytes) :
    QueryUnescape (escapeByte b ++ rest) = (QueryUnescape rest).map (List.cons b) := by
  unfold escapeByte
  by_cases h : shouldEscape b = true
  · by_cases hs : b = byte ' '
    · subst hs
      simp only [h, if_true, List.singleton_append, unescape_plus]
    · obtain ⟨h1, h2, h3⟩ := hex_byte b
      simp only [h, hs, if_true, if_false, List.cons_append, List.nil_append,
        unescape_percent _ _ _ h1 h2, h3]
  · have h' : shouldEscape b = false := by simpa using h
    obtain ⟨h1, h2⟩ := plain_byte b h'
    simp only [h', Bool.false_eq_true, if_false, List.singleton_append, unescape_plain _ _ h1 h2]

theorem unescape_escape_append (s rest : Bytes) :
    QueryUnescape (QueryEscape s ++ rest) = (QueryUnescape rest).map (fun t => s ++ t) := by
  induction s with
  | nil => simp [QueryEscape]
  | cons b s ih =>
    simp only [QueryEscape, List.append_assoc, unescape_escapeByte, ih, Option.map_map]
    rfl

theorem unescape_escape (s : Bytes) : QueryUnescape (QueryEscape s) = some s := by
  have h := unescape_escape_append s []
  simpa [QueryUnescape] using h

theorem escape_clean (s : Bytes) :
    byte '&' ∉ QueryEscape s ∧ byte '=' ∉ QueryEscape s ∧ byte ';' ∉ QueryEscape s := by
  induction s with
  | nil => simp [QueryEscape]
  | cons b s ih =>
    obtain ⟨h1, h2, h3⟩ := escapeByte_clean b
    obtain ⟨i1, i2, i3⟩ := ih
    simp only [QueryEscape, List.mem_append, not_or]
    exact ⟨⟨h1, i1⟩, ⟨h2, i2⟩, ⟨h3, i3⟩⟩

theorem cut_append (sep : Byte) (a b : Bytes) (h : sep ∉ a) : cut sep (a ++ sep :: b) = (a, b) := by
  induction a with
  | nil => simp [cut]
  | cons c a ih =>
    have hc : c ≠ sep := fun e => h (by simp [e])
    have ha : sep ∉ a := fun e => h (by simp [e])
    simp [cut, hc, ih ha]

theorem parsePiece_item (k x : Bytes) :
    parsePiece (QueryEscape k ++ byte '=' :: QueryEscape x) = some (k, x) := by
  obtain ⟨_, hk2, hk3⟩ := escape_clean k
  obtain ⟨_, _, hx3⟩ := escape_clean x
  have hne : byte ';' ≠ byte '=' := by decide
  have h1 : byte ';' ∉ QueryEscape k ++ byte '=' :: QueryEscape x := by
    simp [hk3, hx3, hne]
  have h2 : QueryEscape k ++ byte '=' :: QueryEscape x ≠ [] := by simp
  simp only [parsePiece, h1, h2, if_false, cut_append _ _ _ hk2, unescape_escape]

theorem split_clean (sep : Byte) (a : Bytes) (h : sep ∉ a) : split sep a = [a] := by
  induction a with
  | nil => simp [split]
  | cons c a ih =>
    have hc : c ≠ sep := fun e => h (by simp [e])
    have ha : sep ∉ a := fun e => h (by simp [e])
    simp [split, hc, ih ha]

theorem split_append (sep : Byte) (a b : Bytes) (h : sep ∉ a) :
    split sep (a ++ sep :: b) = a :: split sep b := by
  induction a with
  | nil => simp [split]
  | cons c a ih =>
    have hc : c ≠ sep := fun e => h (by simp [e])
    have ha : sep ∉ a := fun e => h (by simp [e])
    simp [split, hc, ih ha]

theorem parse_joinAmp (items : List Bytes) (h : ∀ i ∈ items, byte '&' ∉ i) :
    (split (byte '&') (joinAmp items)).filterMap parsePiece = items.filterMap parsePiece := by
  induction items with
  | nil => simp [joinAmp, split, parsePiece]
  | cons p ps ih =>
    have hp : byte '&' ∉ p := h p (by simp)
    have hps : ∀ i ∈ ps, byte '&' ∉ i := fun i hi => h i (by simp [hi])
    cases ps with
    | nil => simp [joinAmp, split_clean _ _ hp]
    | cons q qs =>
      rw [joinAmp, split_append _ _ _ hp, List.filterMap_cons, List.filterMap_cons (a := p), ih hps]

/-- The pairs of a map in the order `Encode` writes them. -/
theorem encodeItems_clean (v : Values) (ks : List Bytes) : ∀ i ∈ encodeItems v ks, byte '&' ∉ i := by
  induction ks with
  | nil => simp [encodeItems]
  | cons k ks ih =>
    intro i hi
    simp only [encodeItems, List.mem_append] at hi
    rcases hi with hi | hi
    · simp only [encodeKey, List.mem_map] at hi
      obtain ⟨x, _, rfl⟩ := hi
      have hne : byte '&' ≠ byte '=' := by decide
      simp [(escape_clean k).1, (escape_clean x).1, hne]
    · exact ih i hi

theorem parse_encodeKey (v : Values) (k : Bytes) :
    (encodeKey v k).filterMap parsePiece = (Values.values v k).map (fun x => (k, x)) := by
  unfold encodeKey
  induction Values.values v k with
  | nil => simp
  | cons x xs ih => simp [parsePiece_item, ih]

theorem values_parse_encodeItems (v : Values) (ks : List Bytes) (key : Bytes) (hks : ks.Nodup) :
    Values.values ((encodeItems v ks).filterMap parsePiece) key =
      if key ∈ ks then Values.values v key else [] := by
  induction ks with
  | nil => simp [encodeItems, Values.values]
  | cons k ks ih =>
    have hk : k ∉ ks := (List.nodup_cons.mp hks).1
    have ih' := ih (List.nodup_cons.mp hks).2
    simp only [encodeItems, List.filterMap_append, parse_encodeKey]
    simp only [Values.values, List.filter_append, List.map_append] at ih' ⊢
    rw [ih']
    by_cases hkey : key = k
    · subst hkey
      simp [hk, List.filter_map, Function.comp_def]
    · have hkey' : ¬ k = key := fun e => hkey e.symm
      simp [hkey, hkey', List.filter_map, Function.comp_def]

theorem mem_insertSorted (a k : Bytes) (l : List Bytes) :
    a ∈ insertSorted k l ↔ a = k ∨ a ∈ l := by
  induction l with
  | nil => simp [insertSorted]
  | cons x xs ih =>
    unfold insertSorted
    split_ifs with h1
    · simp only [List.mem_cons, ih]; tauto
    · simp

theorem nodup_insertSorted (k : Bytes) (l : List Bytes) (hk : k ∉ l) (h : l.Nodup) :
    (insertSorted k l).Nodup := by
  induction l with
  | nil => simp [insertSorted]
  | cons x xs ih =>
    have hx : k ≠ x := fun e => hk (by simp [e])
    have hxs : k ∉ xs := fun e => hk (by simp [e])
    unfold insertSorted
    split_ifs with h1
    · refine List.nodup_cons.mpr ⟨?_, ih hxs (List.nodup_cons.mp h).2⟩
      rw [mem_insertSorted]
      rintro (e | e)
      · exact hx e.symm
      · exact (List.nodup_cons.mp h).1 e
    · exact List.nodup_cons.mpr ⟨hk, h⟩

theorem mem_keys (v : Values) (k : Bytes) : k ∈ Values.keys v ↔ ∃ x, (k, x) ∈ v := by
  induction v with
  | nil => simp [Values.keys]
  | cons p ps ih =>
    obtain ⟨pk, px⟩ := p
    have hstep : Values.keys ((pk, px) :: ps) =
        if pk ∈ Values.keys ps then Values.keys ps else insertSorted pk (Values.keys ps) := rfl
    rw [hstep]
    split_ifs with h
    · constructor
      · intro hk
        obtain ⟨x, hx⟩ := ih.mp hk
        exact ⟨x, by simp [hx]⟩
      · rintro ⟨x, hx⟩
        simp only [List.mem_cons, Prod.mk.injEq] at hx
        rcases hx with ⟨rfl, _⟩ | hx
        · exact h
        · exact ih.mpr ⟨x, hx⟩
    · rw [mem_insertSorted, ih]
      constructor
      · rintro (rfl | ⟨x, hx⟩)
        · exact ⟨px, by simp⟩
        · exact ⟨x, by simp [hx]⟩
      · rintro ⟨x, hx⟩
        simp only [List.mem_cons, Prod.mk.injEq] at hx
        rcases hx with ⟨rfl, _⟩ | hx
        · exact Or.inl rfl
        · exact Or.inr ⟨x, hx⟩

theorem nodup_keys (v : Values) : (Values.keys v).Nodup := by
  induction v with
  | nil => simp [Values.keys]
  | cons p ps ih =>
    have hstep : Values.keys (p :: ps) =
        if p.1 ∈ Values.keys ps then Values.keys ps else insertSorted p.1 (Values.keys ps) := rfl
    rw [hstep]
    split_ifs with h
    · exact ih
    · exact nodup_insertSorted _ _ h ih

theorem values_eq_nil (v : Values) (k : Bytes) (h : k ∉ Values.keys v) : Values.values v k = [] := by
  rw [mem_keys] at h
  simp only [Values.values, List.map_eq_nil_iff, List.filter_eq_nil_iff]
  intro p hp hpk
  exact h ⟨p.2, by
    have : p = (k, p.2) := by
      have := of_decide_eq_true hpk
      exact Prod.ext this rfl
    rw [← this]; exact hp⟩

/-- Parsing what `Encode` writes gives back, under every key, the values the
map holds under that key, in the same order. -/
theorem values_parse_encode (v : Values) (key : Bytes) :
    Values.values (ParseQuery (Values.Encode v)) key = Values.values v key := by
  unfold ParseQuery Values.Encode
  rw [parse_joinAmp _ (encodeItems_clean v _), values_parse_encodeItems _ _ _ (nodup_keys v)]
  split_ifs with h
  · rfl
  · exact (values_eq_nil v key h).symm

end url

/-! ## Lemmas: the dispatcher -/

theorem NewRequest_unfold (m raw : Bytes) (body : Option Bytes) :
    http.NewRequest m raw body =
      if ¬ http.validMethod (if m = [] then lit "GET" else m) then
        .error (.newRequest (lit "net/http: invalid method"))
      else
        match url.Parse raw with
        | .error e => .error (.newRequest e)
        | .ok u => .ok { Method := if m = [] then lit "GET" else m,
                         URL := { u with Host := http.removeEmptyPort u.Host }, Header := [],
                         Body := body } := rfl

theorem NewRequest_ok (m raw : Bytes) (body : Option Bytes) (r : http.Request)
    (h : http.NewRequest m raw body = .ok r) :
    ∃ u, url.Parse raw = .ok u ∧ http.validMethod (if m = [] then lit "GET" else m) = true ∧
      r = { Method := if m = [] then lit "GET" else m,
            URL := { u with Host := http.removeEmptyPort u.Host }, Header := [], Body := body } := by
  rw [NewRequest_unfold] at h
  by_cases hv : http.validMethod (if m = [] then lit "GET" else m) = true
  · rw [if_neg (not_not.mpr hv)] at h
    cases hp : url.Parse raw with
    | error e => rw [hp] at h; cases h
    | ok u =>
      rw [hp] at h
      exact ⟨u, rfl, hv, (Except.ok.inj h).symm⟩
  · rw [if_pos hv] at h; cases h

theorem NewRequest_error (m raw : Bytes) (body : Option Bytes) (e : GoError)
    (h : http.NewRequest m raw body = .error e) : ∃ msg, e = .newRequest msg := by
  rw [NewRequest_unfold] at h
  by_cases hv : http.validMethod (if m = [] then lit "GET" else m) = true
  · rw [if_neg (not_not.mpr hv)] at h
    cases hp : url.Parse raw with
    | error e2 =>
      rw [hp] at h
      exact ⟨e2, (Except.error.inj h).symm⟩
    | ok u => rw [hp] at h; cases h
  · rw [if_pos hv] at h
    exact ⟨_, (Except.error.inj h).symm⟩

/-- The dispatcher either fails before any transport call, or hands exactly one
request, `outgoing`, to the transport and returns what `answer` makes of the
reply. -/
theorem httpRequest_cases (c : Client) (request : GristRequest) :
    (∃ e, http.NewRequest request.Method (c.URL ++ request.Path) request.Data = .error e ∧
        c.httpRequest request = ⟨none, some e, []⟩) ∨
    (∃ u, url.Parse (c.URL ++ request.Path) = .ok u ∧
        http.validMethod (if request.Method = [] then lit "GET" else request.Method) = true ∧
        c.httpRequest request = Client.answer (c.outgoing request u) (c.Do (c.outgoing request u))) := by
  cases hn : http.NewRequest request.Method (c.URL ++ request.Path) request.Data with
  | error e =>
    left
    refine ⟨e, rfl, ?_⟩
    simp only [Client.httpRequest, Sprintf_two_strings, hn]
  | ok r =>
    right
    obtain ⟨u, hu, hv, hr⟩ := NewRequest_ok _ _ _ _ hn
    subst hr
    refine ⟨u, hu, hv, ?_⟩
    simp only [Client.httpRequest, Sprintf_two_strings, Sprintf_bearer, hn]
    unfold Client.answer Client.outgoing Client.query http.Header.Add url.URL.Query
    cases hg : c.GlobalFilter <;> cases hf : request.Filter <;> simp only [List.nil_append, List.cons_append]

theorem answer_calls (req : http.Request) (r : Except GoError http.Response) :
    (Client.answer req r).calls = [req] := by
  unfold Client.answer
  split
  · rfl
  · split
    · rfl
    · split_ifs <;> rfl

theorem httpRequest_sent (c : Client) (request : GristRequest) (req : http.Request)
    (h : req ∈ (c.httpRequest request).calls) :
    ∃ u, url.Parse (c.URL ++ request.Path) = .ok u ∧ req = c.outgoing request u ∧
      c.httpRequest request = Client.answer req (c.Do req) := by
  rcases httpRequest_cases c request with ⟨e, _, he⟩ | ⟨u, hu, _, hr⟩
  · rw [he] at h; simp at h
  · rw [hr, answer_calls] at h
    have : req = c.outgoing request u := by simpa using h
    subst this
    exact ⟨u, hu, rfl, hr⟩

/-- A 200 answer whose body reads in full is returned as it is. -/
theorem httpRequest_ok (c : Client) (request : GristRequest) (req : http.Request)
    (resp : http.Response) (b : Bytes) (hreq : req ∈ (c.httpRequest request).calls)
    (hdo : c.Do req = .ok resp) (hs : resp.StatusCode = 200) (hb : resp.Body = .ok b) :
    (c.httpRequest request).value = some b ∧ (c.httpRequest request).err = none := by
  obtain ⟨u, _, _, hres⟩ := httpRequest_sent c request req hreq
  rw [hres, hdo]
  simp [Client.answer, hb, hs]

theorem NewRequest_norm (m raw : Bytes) (body : Option Bytes) :
    http.NewRequest m raw body = http.NewRequest (if m = [] then lit "GET" else m) raw body := by
  by_cases hm : m = []
  · subst hm
    rfl
  · rw [if_neg hm]

/-- The dispatcher reads the path, the method (an empty one as GET), the filter
and the data of a request model, and nothing else. -/
theorem httpRequest_congr (c : Client) (r r2 : GristRequest) (hp : r.Path = r2.Path)
    (hm : (if r.Method = [] then lit "GET" else r.Method) =
      (if r2.Method = [] then lit "GET" else r2.Method))
    (hf : r.Filter = r2.Filter) (hd : r.Data = r2.Data) :
    c.httpRequest r = c.httpRequest r2 := by
  simp only [Client.httpRequest]
  rw [NewRequest_norm r.Method, NewRequest_norm r2.Method, hm, hp, hf, hd]

theorem httpRequest_calls_of_parse (c : Client) (r : GristRequest) (u : url.URL)
    (hv : http.validMethod (if r.Method = [] then lit "GET" else r.Method) = true)
    (hu : url.Parse (c.URL ++ r.Path) = .ok u) :
    (c.httpRequest r).calls = [c.outgoing r u] := by
  rcases httpRequest_cases c r with ⟨e, hn, _⟩ | ⟨u2, hu2, _, hr⟩
  · rw [NewRequest_unfold, if_neg (not_not.mpr hv), hu] at hn
    cases hn
  · rw [hu] at hu2
    cases hu2
    rw [hr, answer_calls]

/-- When the target does not parse, the dispatcher returns the error of
`http.NewRequest` and sends nothing. -/
theorem httpRequest_parse_error (c : Client) (r : GristRequest) (e : Bytes)
    (hv : http.validMethod (if r.Method = [] then lit "GET" else r.Method) = true)
    (hu : url.Parse (c.URL ++ r.Path) = .error e) :
    c.httpRequest r = ⟨none, some (.newRequest e), []⟩ := by
  rcases httpRequest_cases c r with ⟨e2, hn, he⟩ | ⟨u2, hu2, _, _⟩
  · rw [NewRequest_unfold, if_neg (not_not.mpr hv), hu] at hn
    cases hn
    exact he
  · rw [hu] at hu2
    cases hu2

/-! ## Lemmas: filters and headers -/

theorem values_add (q : url.Values) (k x : Bytes) :
    url.Values.values (url.Values.Add q k x) k = url.Values.values q k ++ [x] := by
  simp [url.Values.values, url.Values.Add, List.filter_append]

theorem values_del (q : url.Values) (k : Bytes) :
    url.Values.values (url.Values.Del q k) k = [] := by
  simp only [url.Values.values, url.Values.Del, List.map_eq_nil_iff, List.filter_eq_nil_iff]
  intro p hp
  have := (List.mem_filter.mp hp).2
  simpa using this

theorem cut_snd_nil (sep : Byte) (a : Bytes) (h : sep ∉ a) : (url.cut sep a).2 = [] := by
  induction a with
  | nil => rfl
  | cons c a ih =>
    have hc : c ≠ sep := fun e => h (by simp [e])
    have ha : sep ∉ a := fun e => h (by simp [e])
    simp [url.cut, hc, ih ha]

theorem cut_fst_subset (sep : Byte) (a : Bytes) : ∀ b ∈ (url.cut sep a).1, b ∈ a := by
  induction a with
  | nil => simp [url.cut]
  | cons c a ih =>
    intro b hb
    unfold url.cut at hb
    split_ifs at hb with h
    · simp at hb
    · simp only [List.mem_cons] at hb ⊢
      rcases hb with hb | hb
      · exact Or.inl hb
      · exact Or.inr (ih b hb)

theorem cut_fst_self (sep : Byte) (a : Bytes) (h : sep ∉ a) : (url.cut sep a).1 = a := by
  induction a with
  | nil => rfl
  | cons c a ih =>
    have hc : c ≠ sep := fun e => h (by simp [e])
    have ha : sep ∉ a := fun e => h (by simp [e])
    simp [url.cut, hc, ih ha]

theorem getSchemeFrom_rest (raw : Bytes) (l seen s r : Bytes) (hl : ∀ b ∈ l, b ∈ raw)
    (h : url.getSchemeFrom raw seen l = .ok (s, r)) : ∀ b ∈ r, b ∈ raw := by
  induction l generalizing seen with
  | nil =>
    simp only [url.getSchemeFrom, Except.ok.injEq, Prod.mk.injEq] at h
    rw [← h.2]
    exact fun b hb => hb
  | cons c cs ih =>
    have hcs : ∀ b ∈ cs, b ∈ raw := fun b hb => hl b (by simp [hb])
    unfold url.getSchemeFrom at h
    split_ifs at h with h1 h2 h3 h4 h5
    · exact ih _ hcs h
    · simp only [Except.ok.injEq, Prod.mk.injEq] at h
      rw [← h.2]
      exact fun b hb => hb
    · exact ih _ hcs h
    · simp only [Except.ok.injEq, Prod.mk.injEq] at h
      rw [← h.2]
      exact hcs
    · simp only [Except.ok.injEq, Prod.mk.injEq] at h
      rw [← h.2]
      exact fun b hb => hb

theorem setPath_ok (u v : url.URL) (p : Bytes) (h : url.setPath u p = .ok v) :
    v = { u with Path := p } := by
  unfold url.setPath at h
  split_ifs at h
  exact (Except.ok.inj h).symm

/-- What `parse` yields has no fragment, and no query string when the text has
no question mark. -/
theorem parse_ok (raw : Bytes) (u : url.URL) (h : url.parse raw = .ok u) :
    u.Fragment = [] ∧ (byte '?' ∉ raw → u.RawQuery = []) := by
  unfold url.parse at h
  split_ifs at h with h1 h2
  · cases h
    exact ⟨rfl, fun _ => rfl⟩
  · cases hg : url.getScheme raw with
    | error e => rw [hg] at h; cases h
    | ok sr =>
      obtain ⟨scheme, rest0⟩ := sr
      rw [hg] at h
      simp only at h
      have hsub : ∀ b ∈ rest0, b ∈ raw :=
        getSchemeFrom_rest raw raw [] scheme rest0 (fun b hb => hb) hg
      generalize hforce : (decide (rest0.getLast? = some (byte '?')) &&
        decide (rest0.count (byte '?') = 1)) = force at h
      generalize hrest : (if force = true then rest0.dropLast
        else (url.cut (byte '?') rest0).1) = rest at h
      generalize hqy : (if force = true then [] else (url.cut (byte '?') rest0).2) = query at h
      have hquery : byte '?' ∉ raw → query = [] := by
        intro hq
        rw [← hqy]
        split_ifs
        · rfl
        · exact cut_snd_nil _ _ (fun hm => hq (hsub _ hm))
      split_ifs at h
      all_goals first
        | (cases h <;> exact ⟨rfl, hquery⟩)
        | (have hu := setPath_ok _ _ _ h
           subst hu
           exact ⟨rfl, hquery⟩)
        | (cases ha : url.parseAuthority (url.breakAt (byte '/') (List.drop 2 rest)).1 with
           | error e => rw [ha] at h; cases h
           | ok uh =>
             obtain ⟨user, host⟩ := uh
             rw [ha] at h
             have hu := setPath_ok _ _ _ h
             subst hu
             exact ⟨rfl, hquery⟩)

theorem Parse_no_query (raw : Bytes) (u : url.URL) (h : url.Parse raw = .ok u)
    (hq : byte '?' ∉ raw) : u.RawQuery = [] := by
  unfold url.Parse at h
  have hq2 : byte '?' ∉ (url.cut (byte '#') raw).1 := fun hm => hq (cut_fst_subset _ _ _ hm)
  cases hp : url.parse (url.cut (byte '#') raw).1 with
  | error e => rw [hp] at h; cases h
  | ok v =>
    rw [hp] at h
    simp only at h
    have hv := (parse_ok _ _ hp).2 hq2
    split_ifs at h
    · cases h; exact hv
    · cases h; exact hv

theorem Parse_no_fragment (raw : Bytes) (u : url.URL) (h : url.Parse raw = .ok u)
    (hq : byte '#' ∉ raw) : u.Fragment = [] := by
  unfold url.Parse at h
  cases hp : url.parse (url.cut (byte '#') raw).1 with
  | error e => rw [hp] at h; cases h
  | ok v =>
    rw [hp] at h
    simp only at h
    rw [if_pos (cut_snd_nil _ _ hq)] at h
    cases h
    exact (parse_ok _ _ hp).1

/-! ## Lemmas: the requests of records.go -/

/-- The request model of `GetRecords` has no filter. -/
theorem GetRecords_request (c : Client) (document : DocumentID) (table : TableID) :
    c.GetRecords document table =
      c.httpRequest
        { Path := lit "/api/docs/" ++ document ++ lit "/tables/" ++ table ++ lit "/records",
          Method := lit "GET", Filter := none } := by
  simp [Client.GetRecords, Client.getRecords, Sprintf, lit, formatArg, byte, Fin.ofNat]

/-- With a nil filter `GetFilteredRecords` is `GetRecords`. -/
theorem GetFilteredRecords_nil (c : Client) (document : DocumentID) (table : TableID) :
    c.GetFilteredRecords document table none = c.GetRecords document table := rfl

/-- With a non-nil filter `GetFilteredRecords` puts it on the request model. -/
theorem GetFilteredRecords_some (c : Client) (document : DocumentID) (table : TableID)
    (f : Bytes) :
    c.GetFilteredRecords document table (some f) =
      c.httpRequest
        { Path := lit "/api/docs/" ++ document ++ lit "/tables/" ++ table ++ lit "/records",
          Method := lit "GET", Filter := some f } := by
  simp [Client.GetFilteredRecords, Client.getRecords, Sprintf, lit, formatArg, byte, Fin.ofNat]

/-! ## Evaluations of the model -/

/-- The filtered request of the test suite, as it leaves the client. -/
theorem filtered_request_sent :
    ((anonClient 200 []).GetFilteredRecords (lit "document1") [] (some idFilter)).calls =
      [{ Method := lit "GET",
         URL := testURL (lit "/api/docs/document1/tables//records") (lit "filter=%7B%22id%22%3A+%5B1%5D%7D"),
         Header := [(lit "Content-Type", lit "application/json"),
           (lit "Authorization", lit "Bearer ")],
         Body := none }] := by
  decide

/-- What the server of the test suite reads back from that query string. -/
theorem filtered_request_read :
    url.Values.Get (url.ParseQuery (lit "filter=%7B%22id%22%3A+%5B1%5D%7D")) (lit "filter") =
      idFilter := by
  decide

/-- The body `json.Marshal` writes for one text column. -/
theorem text_column_body :
    Columns.encode (some [textColumn]) =
      .ok (lit ("\x7b\"columns\":[\x7b\"id\":\"name\",\"fields\":\x7b\"label\":\"Name\"," ++
        "\"type\":\"Text\",\"recalcWhen\":0\x7d\x7d]\x7d")) := by
  decide

/-- A table without columns stops `CreateTables` before serialization, even
when an earlier table holds a column that does not serialize. -/
theorem validation_before_serialization :
    (anonClient 200 []).CreateTables (lit "doc")
        (some [{ ID := lit "A", Columns := some [emptyFormulaColumn] }, { ID := lit "B" }]) =
      ⟨none, some (.errorString (lit "columns required to create table")), []⟩ := by
  decide

/-! ## Claims -/

/-- C8: for every GristError with status code s and details d, `Error()` is the
text "status: " followed by the decimal form of s (a minus sign and the digits
when s is negative, "0" for zero), ", details: " and d unchanged. -/
theorem C8_error_message (g : GristError) :
    g.Error = lit "status: " ++ formatInt g.StatusCode ++ lit ", details: " ++ g.Details ∧
      formatInt g.StatusCode = lit (toString g.StatusCode) := by
  constructor
  · simp [GristError.Error, Sprintf, lit, formatArg, byte, Fin.ofNat]
  · unfold formatInt formatNat lit
    cases g.StatusCode with
    | ofNat n =>
      have h : ¬ Int.ofNat n < 0 := by simp
      rw [if_neg h]
      rfl
    | negSucc n =>
      have h : Int.negSucc n < 0 := Int.negSucc_lt_zero n
      rw [if_pos h]
      rfl

/-- C1: when the request carries a filter R (empty or not), every request handed
to the transport has a query string in which the parameter `filter` has exactly
one value, the text of R, whatever the global filter and the URL are. -/
theorem C1_request_filter_replaces (c : Client) (request : GristRequest) (R : Bytes)
    (req : http.Request) (hR : request.Filter = some R)
    (hreq : req ∈ (c.httpRequest request).calls) :
    url.Values.values (url.ParseQuery req.URL.RawQuery) (lit "filter") = [R] ∧
      url.Values.Get (url.ParseQuery req.URL.RawQuery) (lit "filter") = R := by
  obtain ⟨u, _, hout, _⟩ := httpRequest_sent c request req hreq
  have hv : url.Values.values (url.ParseQuery req.URL.RawQuery) (lit "filter") = [R] := by
    rw [hout]
    simp only [Client.outgoing, Client.query, hR, url.values_parse_encode, values_add, values_del,
      List.nil_append]
  exact ⟨hv, by simp [url.Values.Get, hv]⟩

/-- C1, at a client with a global filter and a request with the empty, non-nil
filter. -/
theorem C1_request_filter_replaces_witness :
    url.Values.values (url.ParseQuery (lit "filter=")) (lit "filter") = [[]] ∧
      url.Values.Get (url.ParseQuery (lit "filter=")) (lit "filter") = [] :=
  C1_request_filter_replaces (sampleClient (some idFilter) 200 [])
    { Path := lit "/api/docs/d/tables/t/records", Method := lit "GET", Filter := some [] } []
    { Method := lit "GET",
      URL := testURL (lit "/api/docs/d/tables/t/records") (lit "filter="),
      Header := [(lit "Content-Type", lit "application/json"),
        (lit "Authorization", lit "Bearer secret")],
      Body := none }
    rfl (by decide)

/-- C2 as stated fails: with the global filter `{"id": [1]}` and no request
filter, `GetRecords` on the table ID `t?filter=x&z=` sends a query whose
`filter` parameter has the two values `x` and the global filter, the first
being `x`. -/
theorem C2_counterexample :
    ((sampleClient (some idFilter) 200 []).GetRecords (lit "d") (lit "t?filter=x&z=")).calls.map
        (fun req => url.Values.values (url.ParseQuery req.URL.RawQuery) (lit "filter")) =
      [[lit "x", idFilter]] ∧
    ((sampleClient (some idFilter) 200 []).GetRecords (lit "d") (lit "t?filter=x&z=")).calls.map
        (fun req => url.Values.Get (url.ParseQuery req.URL.RawQuery) (lit "filter")) =
      [lit "x"] ∧
    lit "x" ≠ idFilter := by
  decide

/-- C2, amended: with a global filter G and no request filter, the `filter`
values of the query handed to the transport are the ones the query string of
base URL plus path already holds, followed by the text of G. So the parameter is
exactly the text of G when base URL plus path holds no `filter` parameter, and
in particular when it contains no question mark. -/
theorem C2_global_filter_appended (c : Client) (request : GristRequest) (G : Bytes)
    (req : http.Request) (hG : c.GlobalFilter = some G) (hF : request.Filter = none)
    (hreq : req ∈ (c.httpRequest request).calls) :
    ∃ u, url.Parse (c.URL ++ request.Path) = .ok u ∧
      url.Values.values (url.ParseQuery req.URL.RawQuery) (lit "filter") =
        url.Values.values u.Query (lit "filter") ++ [G] ∧
      (url.Values.values u.Query (lit "filter") = [] →
        url.Values.values (url.ParseQuery req.URL.RawQuery) (lit "filter") = [G] ∧
          url.Values.Get (url.ParseQuery req.URL.RawQuery) (lit "filter") = G) ∧
      (byte '?' ∉ c.URL ++ request.Path → url.Values.values u.Query (lit "filter") = []) := by
  obtain ⟨u, hu, hout, _⟩ := httpRequest_sent c request req hreq
  have hv : url.Values.values (url.ParseQuery req.URL.RawQuery) (lit "filter") =
      url.Values.values u.Query (lit "filter") ++ [G] := by
    rw [hout]
    simp only [Client.outgoing, Client.query, hG, hF, url.values_parse_encode, values_add]
  refine ⟨u, hu, hv, ?_, ?_⟩
  · intro h0
    rw [h0] at hv
    exact ⟨hv, by simp [url.Values.Get, hv]⟩
  · intro hq
    rw [url.URL.Query, Parse_no_query _ u hu hq]
    rfl

/-- C2, amended, at the request `GetRecords` builds for document `d` and table
`t`. -/
theorem C2_global_filter_appended_witness :
    ∃ u, url.Parse (lit "http://grist.test" ++ lit "/api/docs/d/tables/t/records") = .ok u ∧
      url.Values.values (url.ParseQuery (lit "filter=%7B%22id%22%3A+%5B1%5D%7D")) (lit "filter") =
        url.Values.values u.Query (lit "filter") ++ [idFilter] ∧
      (url.Values.values u.Query (lit "filter") = [] →
        url.Values.values (url.ParseQuery (lit "filter=%7B%22id%22%3A+%5B1%5D%7D")) (lit "filter") =
            [idFilter] ∧
          url.Values.Get (url.ParseQuery (lit "filter=%7B%22id%22%3A+%5B1%5D%7D")) (lit "filter") =
            idFilter) ∧
      (byte '?' ∉ lit "http://grist.test" ++ lit "/api/docs/d/tables/t/records" →
        url.Values.values u.Query (lit "filter") = []) :=
  C2_global_filter_appended (sampleClient (some idFilter) 200 [])
    { Path := lit "/api/docs/d/tables/t/records", Method := lit "GET" } idFilter
    { Method := lit "GET",
      URL := testURL (lit "/api/docs/d/tables/t/records") (lit "filter=%7B%22id%22%3A+%5B1%5D%7D"),
      Header := [(lit "Content-Type", lit "application/json"),
        (lit "Authorization", lit "Bearer secret")],
      Body := none }
    rfl rfl (by decide)

/-- C3: when the transport answers the request with status 200 and a body that
reads in full as b, `httpRequest` returns b itself and no error. -/
theorem C3_ok_returns_body (c : Client) (request : GristRequest) (req : http.Request)
    (resp : http.Response) (b : Bytes) (hreq : req ∈ (c.httpRequest request).calls)
    (hdo : c.Do req = .ok resp) (hs : resp.StatusCode = 200) (hb : resp.Body = .ok b) :
    (c.httpRequest request).value = some b ∧ (c.httpRequest request).err = none :=
  httpRequest_ok c request req resp b hreq hdo hs hb

/-- C3, at a server answering 200 with the body `{"records": []}` followed by a
newline. -/
theorem C3_ok_returns_body_witness :
    ((sampleClient none 200 (lit "\x7b\"records\": []\x7d\n")).httpRequest
        { Path := lit "/api/docs/d/tables/t/records", Method := lit "GET" }).value =
      some (lit "\x7b\"records\": []\x7d\n") ∧
    ((sampleClient none 200 (lit "\x7b\"records\": []\x7d\n")).httpRequest
        { Path := lit "/api/docs/d/tables/t/records", Method := lit "GET" }).err = none :=
  C3_ok_returns_body (sampleClient none 200 (lit "\x7b\"records\": []\x7d\n"))
    { Path := lit "/api/docs/d/tables/t/records", Method := lit "GET" }
    { Method := lit "GET",
      URL := testURL (lit "/api/docs/d/tables/t/records") [],
      Header := [(lit "Content-Type", lit "application/json"),
        (lit "Authorization", lit "Bearer secret")],
      Body := none }
    ⟨200, .ok (lit "\x7b\"records\": []\x7d\n")⟩ (lit "\x7b\"records\": []\x7d\n")
    (by decide) rfl rfl rfl

/-- C9 as stated fails. With the global filter `{}` the request for the path
`/p` goes out with the query string `filter=%7B%7D`, which base URL plus path
does not hold; and with the base URL `http://grist.test:` the request goes out
to the host `grist.test`, while base URL plus path names the host `grist.test:`
with its colon. -/
theorem C9_counterexample :
    ((sampleClient (some (lit "\x7b\x7d")) 200 []).httpRequest
        { Path := lit "/p", Method := lit "GET" }).calls.map (fun req => req.URL) =
      [testURL (lit "/p") (lit "filter=%7B%7D")] ∧
    url.Parse ((sampleClient (some (lit "\x7b\x7d")) 200 []).URL ++ lit "/p") =
      .ok (testURL (lit "/p") []) ∧
    ((emptyPortClient none 200 []).httpRequest
        { Path := lit "/p", Method := lit "GET" }).calls.map (fun req => req.URL) =
      [testURL (lit "/p") []] ∧
    url.Parse ((emptyPortClient none 200 []).URL ++ lit "/p") =
      .ok { testURL (lit "/p") [] with Host := lit "grist.test:" } := by
  decide

/-- C9, amended. Every request handed to the transport carries exactly two
headers, Content-Type with the value "application/json" and Authorization with
the value "Bearer " followed by the token; its URL is the one `url.Parse` reads
from base URL plus path, with an empty port removed from the host and the query
string replaced by the encoding of the query parameters: those of that URL, to
which the global filter is added and in which a request filter replaces every
`filter` value. It is that URL unchanged when no filter is set, the URL has an
empty query string and its host has no empty port. Such a request is sent, and
only this one, whenever `url.Parse` accepts base URL plus path and the method is
empty or a valid method. -/
theorem C9_headers_and_target (c : Client) (request : GristRequest) :
    (∀ req ∈ (c.httpRequest request).calls,
      req.Header = [(lit "Content-Type", lit "application/json"),
        (lit "Authorization", lit "Bearer " ++ c.Token)] ∧
      http.Header.Values req.Header (lit "Authorization") = [lit "Bearer " ++ c.Token] ∧
      http.Header.Values req.Header (lit "Content-Type") = [lit "application/json"] ∧
      ∃ u, url.Parse (c.URL ++ request.Path) = .ok u ∧
        req.URL = { u with Host := http.removeEmptyPort u.Host,
                           RawQuery := url.Values.Encode (c.query request u.Query) } ∧
        (c.GlobalFilter = none → request.Filter = none → u.RawQuery = [] →
          http.removeEmptyPort u.Host = u.Host → req.URL = u)) ∧
    (∀ u, url.Parse (c.URL ++ request.Path) = .ok u →
      http.validMethod (if request.Method = [] then lit "GET" else request.Method) = true →
      (c.httpRequest request).calls =
        [{ Method := if request.Method = [] then lit "GET" else request.Method,
           URL := { u with Host := http.removeEmptyPort u.Host,
                           RawQuery := url.Values.Encode (c.query request u.Query) },
           Header := [(lit "Content-Type", lit "application/json"),
             (lit "Authorization", lit "Bearer " ++ c.Token)],
           Body := request.Data }]) := by
  constructor
  · intro req hreq
    obtain ⟨u, hu, hout, _⟩ := httpRequest_sent c request req hreq
    subst hout
    have hne : lit "Content-Type" ≠ lit "Authorization" := by decide
    refine ⟨rfl, ?_, ?_, u, hu, rfl, ?_⟩
    · simp [http.Header.Values, Client.outgoing, hne]
    · simp [http.Header.Values, Client.outgoing, hne.symm]
    · intro hg hf hq hh
      have hquery : c.query request u.Query = [] := by
        simp only [Client.query, hg, hf, url.URL.Query, hq]
        rfl
      simp only [Client.outgoing, hquery, hh]
      rw [show url.Values.Encode [] = [] from rfl, ← hq]
  · intro u hu hv
    exact httpRequest_calls_of_parse c request u hv hu

/-- C9, amended, at a DELETE sent by a client with a global filter whose base
URL has an empty port, for a path that holds a query string; and, for the URL
left unchanged, at a DELETE sent by a client without filter. -/
theorem C9_headers_and_target_witness :
    ((emptyPortClient (some idFilter) 200 []).httpRequest
        { Path := lit "/api/docs/d?b=2&a=1", Method := lit "DELETE" }).calls =
      [{ Method := lit "DELETE",
         URL := testURL (lit "/api/docs/d") (lit "a=1&b=2&filter=%7B%22id%22%3A+%5B1%5D%7D"),
         Header := [(lit "Content-Type", lit "application/json"),
           (lit "Authorization", lit "Bearer secret")],
         Body := none }] ∧
    ([(lit "Content-Type", lit "application/json"), (lit "Authorization", lit "Bearer secret")] =
        [(lit "Content-Type", lit "application/json"),
          (lit "Authorization", lit "Bearer " ++ lit "secret")] ∧
      http.Header.Values [(lit "Content-Type", lit "application/json"),
          (lit "Authorization", lit "Bearer secret")] (lit "Authorization") =
        [lit "Bearer " ++ lit "secret"] ∧
      http.Header.Values [(lit "Content-Type", lit "application/json"),
          (lit "Authorization", lit "Bearer secret")] (lit "Content-Type") =
        [lit "application/json"] ∧
      ∃ u, url.Parse (lit "http://grist.test:" ++ lit "/api/docs/d?b=2&a=1") = .ok u ∧
        testURL (lit "/api/docs/d") (lit "a=1&b=2&filter=%7B%22id%22%3A+%5B1%5D%7D") =
          { u with Host := http.removeEmptyPort u.Host,
                   RawQuery := url.Values.Encode ((emptyPortClient (some idFilter) 200 []).query
                     { Path := lit "/api/docs/d?b=2&a=1", Method := lit "DELETE" } u.Query) } ∧
        (some idFilter = none → (none : RawMessage) = none → u.RawQuery = [] →
          http.removeEmptyPort u.Host = u.Host →
          testURL (lit "/api/docs/d") (lit "a=1&b=2&filter=%7B%22id%22%3A+%5B1%5D%7D") = u)) ∧
    (∃ u, url.Parse (lit "http://grist.test" ++ lit "/api/docs/d") = .ok u ∧
        testURL (lit "/api/docs/d") [] =
          { u with Host := http.removeEmptyPort u.Host,
                   RawQuery := url.Values.Encode ((anonClient 200 []).query
                     { Path := lit "/api/docs/d", Method := lit "DELETE" } u.Query) } ∧
        ((none : RawMessage) = none → (none : RawMessage) = none → u.RawQuery = [] →
          http.removeEmptyPort u.Host = u.Host → testURL (lit "/api/docs/d") [] = u)) :=
  ⟨(C9_headers_and_target (emptyPortClient (some idFilter) 200 [])
      { Path := lit "/api/docs/d?b=2&a=1", Method := lit "DELETE" }).2
      { Scheme := lit "http", Host := lit "grist.test:", Path := lit "/api/docs/d",
        RawQuery := lit "b=2&a=1" } (by decide) (by decide),
    (C9_headers_and_target (emptyPortClient (some idFilter) 200 [])
      { Path := lit "/api/docs/d?b=2&a=1", Method := lit "DELETE" }).1
      { Method := lit "DELETE",
        URL := testURL (lit "/api/docs/d") (lit "a=1&b=2&filter=%7B%22id%22%3A+%5B1%5D%7D"),
        Header := [(lit "Content-Type", lit "application/json"),
          (lit "Authorization", lit "Bearer secret")],
        Body := none }
      (by decide),
    ((C9_headers_and_target (anonClient 200 [])
      { Path := lit "/api/docs/d", Method := lit "DELETE" }).1
      { Method := lit "DELETE", URL := testURL (lit "/api/docs/d") [],
        Header := [(lit "Content-Type", lit "application/json"),
          (lit "Authorization", lit "Bearer ")],
        Body := none }
      (by decide)).2.2.2⟩

/-! ## Lemmas: serialization and local checks -/

/-- An error the dispatcher returns without any transport call comes from
`http.NewRequest`. -/
theorem httpRequest_no_call (c : Client) (request : GristRequest) (e : GoError)
    (h : (c.httpRequest request).err = some e) (hc : (c.httpRequest request).calls = []) :
    ∃ m, e = .newRequest m := by
  rcases httpRequest_cases c request with ⟨e2, hn, he⟩ | ⟨u, _, _, hr⟩
  · rw [he] at h
    simp only [Option.some.injEq] at h
    subst h
    exact NewRequest_error _ _ _ _ hn
  · rw [hr, answer_calls] at hc
    cases hc

theorem encodeAll_error {α : Type} (enc : α → Except GoError Bytes) (E : GoError)
    (honly : ∀ x e, enc x = .error e → e = E) (xs : List α)
    (hbad : ∃ x ∈ xs, enc x = .error E) : json.encodeAll enc xs = .error E := by
  induction xs with
  | nil => simp at hbad
  | cons x xs ih =>
    unfold json.encodeAll
    cases hx : enc x with
    | error e => rw [honly x e hx]
    | ok b =>
      have htail : ∃ y ∈ xs, enc y = .error E := by
        obtain ⟨y, hy, hye⟩ := hbad
        simp only [List.mem_cons] at hy
        rcases hy with rfl | hy
        · rw [hx] at hye; cases hye
        · exact ⟨y, hy, hye⟩
      simp only [ih htail]

theorem encodeAll_error_only {α : Type} (enc : α → Except GoError Bytes) (E : GoError)
    (honly : ∀ x e, enc x = .error e → e = E) (xs : List α) (e : GoError)
    (h : json.encodeAll enc xs = .error e) : e = E := by
  induction xs generalizing e with
  | nil => simp [json.encodeAll] at h
  | cons x xs ih =>
    unfold json.encodeAll at h
    cases hx : enc x with
    | error e2 =>
      rw [hx] at h
      simp only [Except.error.injEq] at h
      rw [← h]
      exact honly x e2 hx
    | ok b =>
      rw [hx] at h
      simp only at h
      cases ht : json.encodeAll enc xs with
      | error e3 =>
        rw [ht] at h
        simp only [Except.error.injEq] at h
        rw [← h]
        exact ih e3 ht
      | ok bs => rw [ht] at h; simp at h

/-- The one error serialization can end in. -/
theorem MarshalJSON_error_iff (f : ColumnField) (e : GoError) :
    f.MarshalJSON = .error e ↔
      (f.IsFormula = true ∧ f.Formula = []) ∧
        e = .errorString (lit "formula must be set for formula field") := by
  unfold ColumnField.MarshalJSON
  by_cases h : f.IsFormula = true ∧ f.Formula = []
  · rw [if_pos h]
    constructor
    · intro he
      exact ⟨h, (Except.error.inj he).symm⟩
    · rintro ⟨_, rfl⟩
      rfl
  · rw [if_neg h]
    constructor
    · intro he; cases he
    · rintro ⟨h2, _⟩
      exact absurd h2 h

theorem Column_encode_error_only (col : Column) (e : GoError) (h : col.encode = .error e) :
    e = .marshaler (.errorString (lit "formula must be set for formula field")) := by
  unfold Column.encode at h
  cases hm : col.Fields.MarshalJSON with
  | error e2 =>
    rw [hm] at h
    simp only [Except.error.injEq] at h
    rw [← h, ((MarshalJSON_error_iff _ _).mp hm).2]
  | ok b => rw [hm] at h; simp at h

theorem Column_encode_bad (col : Column) (h : col.Fields.IsFormula = true ∧ col.Fields.Formula = []) :
    col.encode = .error (.marshaler (.errorString (lit "formula must be set for formula field"))) := by
  have hm := (MarshalJSON_error_iff col.Fields _).mpr ⟨h, rfl⟩
  unfold Column.encode
  rw [hm]

theorem columns_slice_bad (columns : Option (List Column))
    (h : ∃ col ∈ elems columns, col.Fields.IsFormula = true ∧ col.Fields.Formula = []) :
    json.slice Column.encode columns =
      .error (.marshaler (.errorString (lit "formula must be set for formula field"))) := by
  cases columns with
  | none => simp [elems] at h
  | some cols =>
    obtain ⟨col, hcol, hbad⟩ := h
    have := encodeAll_error Column.encode _ Column_encode_error_only cols
      ⟨col, hcol, Column_encode_bad col hbad⟩
    simp only [json.slice, this]

theorem columns_slice_error_only (columns : Option (List Column)) (e : GoError)
    (h : json.slice Column.encode columns = .error e) :
    e = .marshaler (.errorString (lit "formula must be set for formula field")) := by
  cases columns with
  | none => simp [json.slice] at h
  | some cols =>
    unfold json.slice at h
    simp only at h
    cases ht : json.encodeAll Column.encode cols with
    | error e2 =>
      rw [ht] at h
      simp only [Except.error.injEq] at h
      rw [← h]
      exact encodeAll_error_only _ _ Column_encode_error_only cols e2 ht
    | ok bs => rw [ht] at h; simp at h

theorem Table_encode_error_only (t : Table) (e : GoError) (h : t.encode = .error e) :
    e = .marshaler (.errorString (lit "formula must be set for formula field")) := by
  unfold Table.encode at h
  cases hs : json.slice Column.encode t.Columns with
  | error e2 =>
    rw [hs] at h
    simp only [Except.error.injEq] at h
    rw [← h]
    exact columns_slice_error_only _ _ hs
  | ok b => rw [hs] at h; simp at h

theorem Table_encode_bad (t : Table)
    (h : ∃ col ∈ elems t.Columns, col.Fields.IsFormula = true ∧ col.Fields.Formula = []) :
    t.encode = .error (.marshaler (.errorString (lit "formula must be set for formula field"))) := by
  unfold Table.encode
  rw [columns_slice_bad _ h]

theorem Tables_encode_bad (tables : Option (List Table))
    (h : ∃ t ∈ elems tables, ∃ col ∈ elems t.Columns,
      col.Fields.IsFormula = true ∧ col.Fields.Formula = []) :
    Tables.encode tables =
      .error (.marshaler (.errorString (lit "formula must be set for formula field"))) := by
  cases tables with
  | none => simp [elems] at h
  | some ts =>
    obtain ⟨t, ht, hbad⟩ := h
    have := encodeAll_error Table.encode _ Table_encode_error_only ts
      ⟨t, ht, Table_encode_bad t hbad⟩
    simp only [Tables.encode, json.slice, this]

theorem Tables_encode_error_only (tables : Option (List Table)) (e : GoError)
    (h : Tables.encode tables = .error e) :
    e = .marshaler (.errorString (lit "formula must be set for formula field")) := by
  unfold Tables.encode at h
  cases hs : json.slice Table.encode tables with
  | error e2 =>
    rw [hs] at h
    simp only [Except.error.injEq] at h
    rw [← h]
    cases tables with
    | none => simp [json.slice] at hs
    | some ts =>
      unfold json.slice at hs
      simp only at hs
      cases ht : json.encodeAll Table.encode ts with
      | error e3 =>
        rw [ht] at hs
        simp only [Except.error.injEq] at hs
        rw [← hs]
        exact encodeAll_error_only _ _ Table_encode_error_only ts e3 ht
      | ok bs => rw [ht] at hs; simp at hs
  | ok b => rw [hs] at h; simp at h

theorem anyWithoutColumns_iff (ts : List Table) :
    anyWithoutColumns ts = true ↔ ∃ t ∈ ts, len t.Columns = 0 := by
  induction ts with
  | nil => simp [anyWithoutColumns]
  | cons t ts ih =>
    unfold anyWithoutColumns
    by_cases h : len t.Columns < 1
    · rw [if_pos h]
      simp only [true_iff]
      exact ⟨t, by simp, by omega⟩
    · rw [if_neg h, ih]
      constructor
      · rintro ⟨x, hx, hx0⟩
        exact ⟨x, by simp [hx], hx0⟩
      · rintro ⟨x, hx, hx0⟩
        simp only [List.mem_cons] at hx
        rcases hx with rfl | hx
        · omega
        · exact ⟨x, hx, hx0⟩

theorem writeTable_err_not_validation (c : Client) (method : Bytes) (document : DocumentID)
    (tables : Option (List Table)) :
    ¬ ((c.writeTable method document tables).err =
        some (.errorString (lit "columns required to create table")) ∧
      (c.writeTable method document tables).calls = []) := by
  unfold Client.writeTable
  cases he : Tables.encode tables with
  | error e =>
    simp only [Option.some.injEq]
    rw [Tables_encode_error_only _ _ he]
    rintro ⟨h, _⟩
    cases h
  | ok data =>
    simp only
    rintro ⟨h, hc⟩
    obtain ⟨m, hm⟩ := httpRequest_no_call _ _ _ h hc
    cases hm

theorem replaceLoop_single (q : Byte) (fuel : Nat) (s : Bytes) (h : s.length ≤ fuel) :
    replaceLoop [q] [] fuel s = s.filter (fun b => ¬ b = q) := by
  induction fuel generalizing s with
  | zero =>
    have : s = [] := List.length_eq_zero.mp (Nat.le_zero.mp h)
    subst this
    rfl
  | succ n ih =>
    cases s with
    | nil => rfl
    | cons c cs =>
      have hlen : cs.length ≤ n := by simpa using h
      unfold replaceLoop
      by_cases hc : c = q
      · subst hc
        simp [List.isPrefixOf, ih cs hlen]
      · have hq : ¬ q = c := fun e => hc e.symm
        simp [List.isPrefixOf, hq, hc, ih cs hlen]

theorem stringOf_ReplaceAll_quote (b : Bytes) :
    stringOf (bytes.ReplaceAll b (lit "\"") []) = b.filter (fun x => ¬ x = dquote) := by
  unfold bytes.ReplaceAll stringOf
  by_cases hb : b = []
  · subst hb; rfl
  · have hq : lit "\"" = [dquote] := rfl
    have hne : ¬ ([dquote] : Bytes) = [] := by simp
    rw [if_neg hb, hq, if_neg hne]
    exact replaceLoop_single _ _ _ (Nat.le_refl _)

theorem Sprintf_records (d t : Bytes) :
    Sprintf (lit "/api/docs/%s/tables/%s/records") [.s d, .s t] =
      lit "/api/docs/" ++ d ++ lit "/tables/" ++ t ++ lit "/records" := by
  simp [Sprintf, lit, formatArg, byte, Fin.ofNat]

/-! ## Claims on the endpoints -/

/-- C5: `CreateTables` returns the error "columns required to create table" with
a nil payload, without any transport call, exactly when some table of the list
has no column; no other table matters, and with a column in every table this
error is not returned. -/
theorem C5_tables_need_columns (c : Client) (document : DocumentID)
    (tables : Option (List Table)) :
    ((c.CreateTables document tables).value = none ∧
      (c.CreateTables document tables).err =
        some (.errorString (lit "columns required to create table")) ∧
      (c.CreateTables document tables).calls = []) ↔
    ∃ t ∈ elems tables, len t.Columns = 0 := by
  unfold Client.CreateTables Client.createTables
  by_cases h : anyWithoutColumns (elems tables) = true
  · rw [if_pos h]
    exact ⟨fun _ => (anyWithoutColumns_iff _).mp h, fun _ => ⟨rfl, rfl, rfl⟩⟩
  · rw [if_neg h]
    constructor
    · rintro ⟨_, herr, hcalls⟩
      exact absurd ⟨herr, hcalls⟩ (writeTable_err_not_validation c _ document tables)
    · intro hex
      exact absurd ((anyWithoutColumns_iff _).mpr hex) h

/-- C6: a column with IsFormula set and an empty Formula makes `CreateColumns`,
`PatchColumns` and (when every table has a column) `CreateTables` return the
serialization error with a nil payload and no transport call; and
`ColumnField.MarshalJSON` fails for such a field only. -/
theorem C6_formula_required (c : Client) (document : DocumentID) :
    (∀ (table : Table) (columns : Option (List Column)),
      (∃ col ∈ elems columns, col.Fields.IsFormula = true ∧ col.Fields.Formula = []) →
      c.CreateColumns document table columns =
          ⟨none, some (.marshaler (.errorString (lit "formula must be set for formula field"))),
            []⟩ ∧
        c.PatchColumns document table columns =
          ⟨none, some (.marshaler (.errorString (lit "formula must be set for formula field"))),
            []⟩) ∧
    (∀ tables : Option (List Table), (∀ t ∈ elems tables, 1 ≤ len t.Columns) →
      (∃ t ∈ elems tables, ∃ col ∈ elems t.Columns,
        col.Fields.IsFormula = true ∧ col.Fields.Formula = []) →
      c.CreateTables document tables =
        ⟨none, some (.marshaler (.errorString (lit "formula must be set for formula field"))),
          []⟩) ∧
    (∀ f : ColumnField,
      (∃ e, f.MarshalJSON = .error e) ↔ (f.IsFormula = true ∧ f.Formula = [])) := by
  refine ⟨?_, ?_, ?_⟩
  · intro table columns hbad
    have henc : Columns.encode columns =
        .error (.marshaler (.errorString (lit "formula must be set for formula field"))) := by
      unfold Columns.encode
      rw [columns_slice_bad _ hbad]
    constructor
    · simp only [Client.CreateColumns, Client.writeColumns, henc]
    · simp only [Client.PatchColumns, Client.writeColumns, henc]
  · intro tables hall hbad
    have hno : ¬ anyWithoutColumns (elems tables) = true := by
      rw [anyWithoutColumns_iff]
      rintro ⟨t, ht, h0⟩
      have := hall t ht
      omega
    unfold Client.CreateTables Client.createTables
    rw [if_neg hno]
    simp only [Client.writeTable, Tables_encode_bad _ hbad]
  · intro f
    constructor
    · rintro ⟨e, he⟩
      exact ((MarshalJSON_error_iff f e).mp he).1
    · intro h
      exact ⟨_, (MarshalJSON_error_iff f _).mpr ⟨h, rfl⟩⟩

/-- C6, at a list of a text column followed by a formula column without
formula. -/
theorem C6_formula_required_witness :
    (anonClient 200 []).CreateColumns (lit "doc") { ID := lit "T" }
        (some [textColumn, emptyFormulaColumn]) =
      ⟨none, some (.marshaler (.errorString (lit "formula must be set for formula field"))),
        []⟩ ∧
    (anonClient 200 []).PatchColumns (lit "doc") { ID := lit "T" }
        (some [textColumn, emptyFormulaColumn]) =
      ⟨none, some (.marshaler (.errorString (lit "formula must be set for formula field"))),
        []⟩ :=
  (C6_formula_required (anonClient 200 []) (lit "doc")).1 { ID := lit "T" }
    (some [textColumn, emptyFormulaColumn]) ⟨emptyFormulaColumn, by decide, by decide⟩

/-- C7: on a 200 answer with body b, `CreateDocument` returns b without its
double quotes, wherever they stand, the other bytes staying in order, and no
error; when the dispatcher returns an error, it returns the empty string and
that error. -/
theorem C7_create_document_strips_quotes (c : Client) (workspace : WorkspaceID) (name : Bytes)
    (isPinned : Bool) :
    (∀ req resp b, req ∈ (c.CreateDocument workspace name isPinned).calls →
      c.Do req = .ok resp → resp.StatusCode = 200 → resp.Body = .ok b →
      (c.CreateDocument workspace name isPinned).value = b.filter (fun x => ¬ x = dquote) ∧
        (c.CreateDocument workspace name isPinned).err = none ∧
        dquote ∉ (c.CreateDocument workspace name isPinned).value) ∧
    (∀ e, (c.httpRequest
        { Path := Sprintf (lit "/api/workspaces/%d/docs") [.d workspace], Method := lit "POST",
          Data := some (NewDocRequest.encode { Name := name, IsPinned := isPinned }) }).err =
          some e →
      (c.CreateDocument workspace name isPinned).value = [] ∧
        (c.CreateDocument workspace name isPinned).err = some e) := by
  constructor
  · intro req resp b hreq hdo hs hb
    have hcalls : (c.CreateDocument workspace name isPinned).calls =
        (c.httpRequest
          { Path := Sprintf (lit "/api/workspaces/%d/docs") [.d workspace], Method := lit "POST",
            Data := some (NewDocRequest.encode { Name := name, IsPinned := isPinned }) }).calls := by
      unfold Client.CreateDocument Client.createDocument
      simp only
      generalize c.httpRequest _ = res
      rcases res with ⟨v, _ | e, cs⟩ <;> rfl
    rw [hcalls] at hreq
    obtain ⟨hv, he⟩ := httpRequest_ok _ _ _ _ _ hreq hdo hs hb
    have hval : (c.CreateDocument workspace name isPinned).value =
        b.filter (fun x => ¬ x = dquote) := by
      unfold Client.CreateDocument Client.createDocument
      simp only [he, hv]
      exact stringOf_ReplaceAll_quote b
    have herr : (c.CreateDocument workspace name isPinned).err = none := by
      unfold Client.CreateDocument Client.createDocument
      simp only [he, hv]
    refine ⟨hval, herr, ?_⟩
    rw [hval]
    intro hm
    have := (List.mem_filter.mp hm).2
    simp at this
  · intro e he
    constructor <;> simp only [Client.CreateDocument, Client.createDocument, he]

/-- C7, at the answer `"abc123"`, quotes included. -/
theorem C7_create_document_strips_quotes_witness :
    ((anonClient 200 (lit "\"abc123\"")).CreateDocument 7 (lit "plans") false).value =
      lit "abc123" ∧
    ((anonClient 200 (lit "\"abc123\"")).CreateDocument 7 (lit "plans") false).value =
      (lit "\"abc123\"").filter (fun x => ¬ x = dquote) ∧
    ((anonClient 200 (lit "\"abc123\"")).CreateDocument 7 (lit "plans") false).err = none ∧
    dquote ∉ ((anonClient 200 (lit "\"abc123\"")).CreateDocument 7 (lit "plans") false).value :=
  ⟨by decide,
    (C7_create_document_strips_quotes (anonClient 200 (lit "\"abc123\"")) 7 (lit "plans") false).1
      { Method := lit "POST",
        URL := testURL (lit "/api/workspaces/7/docs") [],
        Header := [(lit "Content-Type", lit "application/json"),
          (lit "Authorization", lit "Bearer ")],
        Body := some (lit "\x7b\"name\":\"plans\",\"isPinned\":false\x7d") }
      ⟨200, .ok (lit "\"abc123\"")⟩ (lit "\"abc123\"") (by decide) rfl rfl rfl⟩

/-- C10 as stated fails. `CreateRecord` called with the single record
`{"fields": {"foo": "test"}}` sends exactly these bytes as the body, which is
not an object wrapping a list named `records`. And a table ID is not kept in
the path when it holds a question mark: for the table ID `t?x` the request goes
to the path `/api/docs/d/tables/t` with the query string `x%2Frecords=`; for a
document ID with a line feed nothing is sent at all. -/
theorem C10_counterexample :
    ((anonClient 200 []).CreateRecord (lit "test") (lit "test") (some oneRecord)).calls.map
        (fun req => (req.Method, req.Body)) = [(lit "POST", some oneRecord)] ∧
    wrapsList (lit "records") oneRecord = false ∧
    ((anonClient 200 []).CreateRecord (lit "d") (lit "t?x") (some wrappedRecords)).calls.map
        (fun req => req.URL) = [testURL (lit "/api/docs/d/tables/t") (lit "x%2Frecords=")] ∧
    (anonClient 200 []).CreateRecord (lit "d\n") (lit "t") (some wrappedRecords) =
      ⟨none, some (.newRequest (lit "net/url: invalid control character in URL")), []⟩ := by
  decide

/-- C10, amended. `CreateRecord` builds the text base URL plus "/api/docs/",
the document ID, "/tables/", the table ID and "/records". When `url.Parse`
accepts that text, exactly one request is handed to the transport: a POST to
the URL parsed from the text (an empty port removed from its host, its query
string encoded anew, with the global filter added to it) with the two headers,
whose body is the reader the caller supplied, unchanged (no body for a nil
reader). That URL has no query string of its own and no fragment when the text
holds neither a question mark nor a number sign. When `url.Parse` rejects the
text, nothing is sent and the error of `http.NewRequest` is returned with a nil
payload. The body sent has the shape `{"records": [...]}` exactly when the
caller supplied it in that shape. -/
theorem C10_create_record_forwards_body (c : Client) (document : DocumentID) (table : TableID)
    (r : Option Bytes) :
    (∀ u, url.Parse (c.URL ++ (lit "/api/docs/" ++ document ++ lit "/tables/" ++ table ++
        lit "/records")) = .ok u →
      (c.CreateRecord document table r).calls =
        [{ Method := lit "POST",
           URL := { u with
             Host := http.removeEmptyPort u.Host,
             RawQuery := url.Values.Encode
               (match c.GlobalFilter with
                | some g => url.Values.Add u.Query (lit "filter") g
                | none => u.Query) },
           Header := [(lit "Content-Type", lit "application/json"),
             (lit "Authorization", lit "Bearer " ++ c.Token)],
           Body := r }] ∧
      (byte '?' ∉ c.URL ++ (lit "/api/docs/" ++ document ++ lit "/tables/" ++ table ++
          lit "/records") → u.RawQuery = []) ∧
      (byte '#' ∉ c.URL ++ (lit "/api/docs/" ++ document ++ lit "/tables/" ++ table ++
          lit "/records") → u.Fragment = [])) ∧
    (∀ e, url.Parse (c.URL ++ (lit "/api/docs/" ++ document ++ lit "/tables/" ++ table ++
        lit "/records")) = .error e →
      c.CreateRecord document table r = ⟨none, some (.newRequest e), []⟩) ∧
    (∀ req ∈ (c.CreateRecord document table r).calls,
      req.Method = lit "POST" ∧ req.Body = r ∧
      ∀ body, r = some body →
        ((∃ sent, req.Body = some sent ∧ wrapsList (lit "records") sent = true) ↔
          wrapsList (lit "records") body = true)) := by
  have hcr : c.CreateRecord document table r =
      c.httpRequest
        { Path := lit "/api/docs/" ++ document ++ lit "/tables/" ++ table ++ lit "/records",
          Method := lit "POST", Data := r } := by
    unfold Client.CreateRecord
    simp only [Sprintf_records]
  have hpost : ¬ lit "POST" = [] := by decide
  have hvalid : http.validMethod (if lit "POST" = [] then lit "GET" else lit "POST") = true := by
    decide
  refine ⟨?_, ?_, ?_⟩
  · intro u hu
    refine ⟨?_, fun hq => Parse_no_query _ u hu hq, fun hq => Parse_no_fragment _ u hu hq⟩
    rw [hcr, httpRequest_calls_of_parse c _ u hvalid hu]
    simp only [Client.outgoing, Client.query, if_neg hpost]
  · intro e he
    rw [hcr]
    exact httpRequest_parse_error c _ e hvalid he
  · intro req hreq
    rw [hcr] at hreq
    obtain ⟨u, hu, hout, _⟩ := httpRequest_sent c _ req hreq
    subst hout
    refine ⟨by simp only [Client.outgoing, if_neg hpost], rfl, ?_⟩
    intro body hbody
    subst hbody
    simp [Client.outgoing]

/-- C10, amended, at the body the test suite posts, sent by a client with a
global filter, and at a document ID with a line feed. -/
theorem C10_create_record_forwards_body_witness :
    (((sampleClient (some idFilter) 200 []).CreateRecord (lit "test") (lit "test")
        (some wrappedRecords)).calls =
        [{ Method := lit "POST",
           URL := testURL (lit "/api/docs/test/tables/test/records")
             (lit "filter=%7B%22id%22%3A+%5B1%5D%7D"),
           Header := [(lit "Content-Type", lit "application/json"),
             (lit "Authorization", lit "Bearer secret")],
           Body := some wrappedRecords }] ∧
      (byte '?' ∉ lit "http://grist.test" ++ (lit "/api/docs/" ++ lit "test" ++ lit "/tables/" ++
          lit "test" ++ lit "/records") → ([] : Bytes) = []) ∧
      (byte '#' ∉ lit "http://grist.test" ++ (lit "/api/docs/" ++ lit "test" ++ lit "/tables/" ++
          lit "test" ++ lit "/records") → ([] : Bytes) = [])) ∧
    (sampleClient (some idFilter) 200 []).CreateRecord (lit "d\n") (lit "t")
        (some wrappedRecords) =
      ⟨none, some (.newRequest (lit "net/url: invalid control character in URL")), []⟩ ∧
    (lit "POST" = lit "POST" ∧ some wrappedRecords = some wrappedRecords ∧
      ∀ body, some wrappedRecords = some body →
        ((∃ sent, some wrappedRecords = some sent ∧ wrapsList (lit "records") sent = true) ↔
          wrapsList (lit "records") body = true)) :=
  ⟨(C10_create_record_forwards_body (sampleClient (some idFilter) 200 []) (lit "test")
      (lit "test") (some wrappedRecords)).1
      (testURL (lit "/api/docs/test/tables/test/records") []) (by decide),
    (C10_create_record_forwards_body (sampleClient (some idFilter) 200 []) (lit "d\n")
      (lit "t") (some wrappedRecords)).2.1
      (lit "net/url: invalid control character in URL") (by decide),
    (C10_create_record_forwards_body (sampleClient (some idFilter) 200 []) (lit "test")
      (lit "test") (some wrappedRecords)).2.2
      { Method := lit "POST",
        URL := testURL (lit "/api/docs/test/tables/test/records")
          (lit "filter=%7B%22id%22%3A+%5B1%5D%7D"),
        Header := [(lit "Content-Type", lit "application/json"),
          (lit "Authorization", lit "Bearer secret")],
        Body := some wrappedRecords }
      (by decide)⟩

/-! ## Lemmas: decimal texts -/

set_option maxRecDepth 100000 in
theorem digit_byte (ch : Byte) :
    ((ch - 48).val > 9 ↔ isDigit ch = false) ∧ (isDigit ch = true → (ch - 48).val = ch.val - 48) ∧
      (isDigit ch = true ↔ 48 ≤ ch.val ∧ ch.val ≤ 57) := by
  revert ch; decide

theorem digitsFrom_cons (n : Nat) (c : Byte) (ds : Bytes) :
    digitsFrom n (c :: ds) = digitsFrom (n * 10 + (c.val - 48)) ds := rfl

theorem digitsFrom_ge (n : Nat) (ds : Bytes) : n ≤ digitsFrom n ds := by
  induction ds generalizing n with
  | nil => exact Nat.le_refl n
  | cons c ds ih =>
    rw [digitsFrom_cons]
    have := ih (n * 10 + (c.val - 48))
    omega

theorem digitsFrom_lt (n : Nat) (ds : Bytes) (h : ds.all isDigit = true) :
    digitsFrom n ds < (n + 1) * 10 ^ ds.length := by
  induction ds generalizing n with
  | nil => simp [digitsFrom]
  | cons c ds ih =>
    simp only [List.all_cons, Bool.and_eq_true] at h
    have hc := ((digit_byte c).2.2).mp h.1
    have := ih (n * 10 + (c.val - 48)) h.2
    rw [digitsFrom_cons, List.length_cons, Nat.pow_succ]
    calc digitsFrom (n * 10 + (c.val - 48)) ds
        < (n * 10 + (c.val - 48) + 1) * 10 ^ ds.length := this
      _ ≤ ((n + 1) * 10) * 10 ^ ds.length := Nat.mul_le_mul_right _ (by omega)
      _ = (n + 1) * (10 ^ ds.length * 10) := by ring

theorem fastLoop_digits (n : Nat) (ds : Bytes) (h : ds.all isDigit = true) :
    strconv.fastLoop (n : Int) ds = some ((digitsFrom n ds : Nat) : Int) := by
  induction ds generalizing n with
  | nil => rfl
  | cons c ds ih =>
    simp only [List.all_cons, Bool.and_eq_true] at h
    obtain ⟨h1, h2, _⟩ := digit_byte c
    have hnot : ¬ (c - 48).val > 9 := fun hgt => by
      have := h1.mp hgt
      rw [h.1] at this
      cases this
    rw [strconv.fastLoop, if_neg hnot, h2 h.1, digitsFrom_cons, ← ih _ h.2]
    congr 1

theorem fastLoop_bad (n : Int) (ds : Bytes) (h : ds.all isDigit = false) :
    strconv.fastLoop n ds = none := by
  induction ds generalizing n with
  | nil => simp at h
  | cons c ds ih =>
    obtain ⟨h1, _, _⟩ := digit_byte c
    rw [strconv.fastLoop]
    by_cases hc : isDigit c = true
    · have hnot : ¬ (c - 48).val > 9 := fun hgt => by
        have := h1.mp hgt
        rw [hc] at this
        cases this
      have hrest : ds.all isDigit = false := by
        simpa [List.all_cons, hc] using h
      rw [if_neg hnot]
      exact ih _ hrest
    · have hc' : isDigit c = false := by simpa using hc
      rw [if_pos (h1.mpr hc')]

theorem uintLoop_ok (n : Nat) (ds : Bytes) (h : ds.all isDigit = true)
    (hlt : digitsFrom n ds < 2 ^ 64) : strconv.uintLoop n ds = (digitsFrom n ds, none) := by
  induction ds generalizing n with
  | nil => rfl
  | cons c ds ih =>
    simp only [List.all_cons, Bool.and_eq_true] at h
    have hc := ((digit_byte c).2.2).mp h.1
    rw [digitsFrom_cons] at hlt ⊢
    have hge := digitsFrom_ge (n * 10 + (c.val - 48)) ds
    have hsmall : n * 10 + (c.val - 48) < 2 ^ 64 := Nat.lt_of_le_of_lt hge hlt
    have hmod : (n * 10 + (c.val - 48)) % 2 ^ 64 = n * 10 + (c.val - 48) := Nat.mod_eq_of_lt hsmall
    have h1 : ¬ n ≥ (2 ^ 64 - 1) / 10 + 1 := by
      norm_num at hsmall ⊢
      omega
    have h2 : ¬ (n * 10 + (c.val - 48)) % 2 ^ 64 < n * 10 := by
      rw [hmod]; omega
    rw [strconv.uintLoop, if_pos hc, if_neg h1, if_neg h2, hmod]
    exact ih _ h.2 hlt

theorem uintLoop_overflow (n : Nat) (ds : Bytes) (h : ds.all isDigit = true) (hn : n < 2 ^ 64)
    (hge : 2 ^ 64 ≤ digitsFrom n ds) : strconv.uintLoop n ds = (2 ^ 64 - 1, some true) := by
  induction ds generalizing n with
  | nil =>
    simp only [digitsFrom, List.foldl_nil] at hge
    omega
  | cons c ds ih =>
    simp only [List.all_cons, Bool.and_eq_true] at h
    have hc := ((digit_byte c).2.2).mp h.1
    rw [digitsFrom_cons] at hge
    rw [strconv.uintLoop, if_pos hc]
    by_cases h1 : n ≥ (2 ^ 64 - 1) / 10 + 1
    · rw [if_pos h1]
    · rw [if_neg h1]
      by_cases hsmall : n * 10 + (c.val - 48) < 2 ^ 64
      · have hmod : (n * 10 + (c.val - 48)) % 2 ^ 64 = n * 10 + (c.val - 48) :=
          Nat.mod_eq_of_lt hsmall
        have h2 : ¬ (n * 10 + (c.val - 48)) % 2 ^ 64 < n * 10 := by
          rw [hmod]; omega
        rw [if_neg h2, hmod]
        exact ih _ h.2 hsmall hge
      · have h2 : (n * 10 + (c.val - 48)) % 2 ^ 64 < n * 10 := by
          norm_num at h1 hsmall ⊢
          omega
        rw [if_pos h2]

theorem uintLoop_bad (n : Nat) (ds : Bytes) (h : ds.all isDigit = false) :
    strconv.uintLoop n ds = (0, some false) ∨ strconv.uintLoop n ds = (2 ^ 64 - 1, some true) := by
  induction ds generalizing n with
  | nil => simp at h
  | cons c ds ih =>
    rw [strconv.uintLoop]
    by_cases hc : isDigit c = true
    · have hc2 := ((digit_byte c).2.2).mp hc
      have hrest : ds.all isDigit = false := by
        simpa [List.all_cons, hc] using h
      rw [if_pos hc2]
      split_ifs
      · exact Or.inr rfl
      · exact Or.inr rfl
      · exact ih _ hrest
    · have hc2 : ¬ (48 ≤ c.val ∧ c.val ≤ 57) := fun hh => hc (((digit_byte c).2.2).mpr hh)
      rw [if_neg hc2]
      exact Or.inl rfl

theorem Atoi_paths (s : Bytes) :
    strconv.Atoi s =
      if 0 < s.length ∧ s.length < 19 then
        if strconv.hasSign s ∧ (strconv.unsigned s).length < 1 then (0, some (.numError s false))
        else
          match strconv.fastLoop 0 (strconv.unsigned s) with
          | none => (0, some (.numError s false))
          | some n => (if strconv.isNeg s then -n else n, none)
      else
        match strconv.ParseInt s with
        | (n, some flag) => (n, some (.numError s flag))
        | (n, none) => (n, none) := by
  simp [strconv.Atoi, strconv.IntSize]

theorem ParseInt_cases (s : Bytes) (hs : s ≠ []) (hds : strconv.unsigned s ≠ []) :
    strconv.ParseInt s =
      match strconv.uintLoop 0 (strconv.unsigned s) with
      | (_, some false) => (0, some false)
      | (un, _) =>
        if ¬ strconv.isNeg s ∧ un ≥ 2 ^ 63 then (2 ^ 63 - 1, some true)
        else if strconv.isNeg s ∧ un > 2 ^ 63 then (-(2 ^ 63), some true)
        else (if strconv.isNeg s then -(un : Int) else (un : Int), none) := by
  simp [strconv.ParseInt, strconv.ParseUint, strconv.IntSize, hs, hds]

theorem unsigned_length (s : Bytes) : (strconv.unsigned s).length ≤ s.length := by
  unfold strconv.unsigned
  split_ifs
  · simp
  · exact Nat.le_refl _

theorem unsigned_nil_cases (s : Bytes) (h : strconv.unsigned s = []) :
    s = [] ∨ (strconv.hasSign s = true ∧ s.length = 1) := by
  unfold strconv.unsigned at h
  split_ifs at h with hsign
  · cases s with
    | nil => exact Or.inl rfl
    | cons c cs =>
      simp only [List.tail_cons] at h
      subst h
      exact Or.inr ⟨hsign, rfl⟩
  · exact Or.inl h

theorem decimalInt_some (s : Bytes) (n : Int) (h : decimalInt s = some n) :
    strconv.unsigned s ≠ [] ∧ (strconv.unsigned s).all isDigit = true ∧
      n = if strconv.isNeg s then -(digitsFrom 0 (strconv.unsigned s) : Int)
        else (digitsFrom 0 (strconv.unsigned s) : Int) := by
  unfold decimalInt at h
  by_cases hd : strconv.unsigned s ≠ [] ∧ (strconv.unsigned s).all isDigit = true
  · rw [if_pos hd] at h
    exact ⟨hd.1, hd.2, (Option.some.inj h).symm⟩
  · rw [if_neg hd] at h
    cases h

theorem decimalInt_none (s : Bytes) (h : decimalInt s = none) :
    ¬ (strconv.unsigned s ≠ [] ∧ (strconv.unsigned s).all isDigit = true) := by
  unfold decimalInt at h
  intro hd
  rw [if_pos hd] at h
  cases h

/-- `Atoi` on the decimal text of an integer that fits `int`. -/
theorem Atoi_decimal (s : Bytes) (n : Int) (h : decimalInt s = some n)
    (hlo : -(2 ^ 63) ≤ n) (hhi : n < 2 ^ 63) : strconv.Atoi s = (n, none) := by
  obtain ⟨hne, hall, hn⟩ := decimalInt_some s n h
  have hs : s ≠ [] := by
    rintro rfl
    exact hne rfl
  have hempty : ¬ (strconv.hasSign s = true ∧ (strconv.unsigned s).length < 1) := by
    rintro ⟨_, hlen⟩
    exact hne (List.length_eq_zero.mp (by omega))
  rw [Atoi_paths]
  by_cases hfast : 0 < s.length ∧ s.length < 19
  · have hloop := fastLoop_digits 0 _ hall
    simp only [Nat.cast_zero] at hloop
    rw [if_pos hfast, if_neg hempty, hloop]
    simp only
    rw [hn]
  · rw [if_neg hfast, ParseInt_cases s hs hne]
    have hv : digitsFrom 0 (strconv.unsigned s) < 2 ^ 64 := by
      by_cases hneg : strconv.isNeg s = true
      · rw [if_pos hneg] at hn
        omega
      · rw [if_neg hneg] at hn
        omega
    rw [uintLoop_ok 0 _ hall hv]
    simp only
    by_cases hneg : strconv.isNeg s = true
    · rw [if_pos hneg] at hn
      have h1 : ¬ (¬ strconv.isNeg s = true ∧ digitsFrom 0 (strconv.unsigned s) ≥ 2 ^ 63) :=
        fun hh => hh.1 hneg
      have h2 : ¬ (strconv.isNeg s = true ∧ digitsFrom 0 (strconv.unsigned s) > 2 ^ 63) := by
        rintro ⟨_, hgt⟩
        omega
      rw [if_neg h1, if_neg h2, if_pos hneg, hn]
    · rw [if_neg hneg] at hn
      have h1 : ¬ (¬ strconv.isNeg s = true ∧ digitsFrom 0 (strconv.unsigned s) ≥ 2 ^ 63) := by
        rintro ⟨_, hge⟩
        omega
      have h2 : ¬ (strconv.isNeg s = true ∧ digitsFrom 0 (strconv.unsigned s) > 2 ^ 63) :=
        fun hh => hneg hh.1
      rw [if_neg h1, if_neg h2, if_neg hneg, hn]

/-- `Atoi` on the decimal text of an integer that does not fit `int`. -/
theorem Atoi_out_of_range (s : Bytes) (n : Int) (h : decimalInt s = some n)
    (hout : n < -(2 ^ 63) ∨ 2 ^ 63 ≤ n) :
    strconv.Atoi s = (if n < 0 then -(2 ^ 63) else 2 ^ 63 - 1, some (.numError s true)) := by
  obtain ⟨hne, hall, hn⟩ := decimalInt_some s n h
  have hs : s ≠ [] := by
    rintro rfl
    exact hne rfl
  have hbig : 2 ^ 63 ≤ digitsFrom 0 (strconv.unsigned s) := by
    by_cases hneg : strconv.isNeg s = true
    · rw [if_pos hneg] at hn
      omega
    · rw [if_neg hneg] at hn
      omega
  have hlen : 19 ≤ (strconv.unsigned s).length := by
    by_contra hshort
    have hlt := digitsFrom_lt 0 _ hall
    have hpow : 10 ^ (strconv.unsigned s).length ≤ 10 ^ 18 :=
      Nat.pow_le_pow_right (by norm_num) (by omega)
    norm_num at hlt hpow hbig
    omega
  have hslen := unsigned_length s
  rw [Atoi_paths, if_neg (by omega), ParseInt_cases s hs hne]
  have hloop : strconv.uintLoop 0 (strconv.unsigned s) =
      (digitsFrom 0 (strconv.unsigned s), none) ∨
      strconv.uintLoop 0 (strconv.unsigned s) = (2 ^ 64 - 1, some true) := by
    by_cases hv : digitsFrom 0 (strconv.unsigned s) < 2 ^ 64
    · exact Or.inl (uintLoop_ok 0 _ hall hv)
    · exact Or.inr (uintLoop_overflow 0 _ hall (by norm_num) (by omega))
  by_cases hneg : strconv.isNeg s = true
  · rw [if_pos hneg] at hn
    have hn0 : n < 0 := by omega
    have h1 : ∀ un : Nat, ¬ (¬ strconv.isNeg s = true ∧ un ≥ 2 ^ 63) := fun _ hh => hh.1 hneg
    rcases hloop with hl | hl
    · have h2 : strconv.isNeg s = true ∧ digitsFrom 0 (strconv.unsigned s) > 2 ^ 63 :=
        ⟨hneg, by omega⟩
      rw [hl]
      simp only
      rw [if_neg (h1 _), if_pos h2, if_pos hn0]
    · have h2 : strconv.isNeg s = true ∧ 2 ^ 64 - 1 > 2 ^ 63 := ⟨hneg, by norm_num⟩
      rw [hl]
      simp only
      rw [if_neg (h1 _), if_pos h2, if_pos hn0]
  · rw [if_neg hneg] at hn
    have hn0 : ¬ n < 0 := by omega
    rcases hloop with hl | hl
    · have h2 : ¬ strconv.isNeg s = true ∧ digitsFrom 0 (strconv.unsigned s) ≥ 2 ^ 63 :=
        ⟨hneg, hbig⟩
      rw [hl]
      simp only
      rw [if_pos h2, if_neg hn0]
    · have h2 : ¬ strconv.isNeg s = true ∧ 2 ^ 64 - 1 ≥ 2 ^ 63 := ⟨hneg, by norm_num⟩
      rw [hl]
      simp only
      rw [if_pos h2, if_neg hn0]

/-- `Atoi` on a text that is not the decimal text of an integer. -/
theorem Atoi_not_decimal (s : Bytes) (h : decimalInt s = none) :
    ∃ v flag, strconv.Atoi s = (v, some (.numError s flag)) := by
  have hd := decimalInt_none s h
  rw [Atoi_paths]
  by_cases hne : strconv.unsigned s = []
  · rcases unsigned_nil_cases s hne with rfl | ⟨hsign, hlen⟩
    · exact ⟨0, false, by decide⟩
    · have hfast : 0 < s.length ∧ s.length < 19 := by omega
      have hempty : strconv.hasSign s = true ∧ (strconv.unsigned s).length < 1 := by
        rw [hne]; exact ⟨hsign, by simp⟩
      rw [if_pos hfast, if_pos hempty]
      exact ⟨0, false, rfl⟩
  · have hall : (strconv.unsigned s).all isDigit = false := by
      by_contra hcon
      exact hd ⟨hne, by simpa using hcon⟩
    have hs : s ≠ [] := by
      rintro rfl
      exact hne rfl
    by_cases hfast : 0 < s.length ∧ s.length < 19
    · rw [if_pos hfast]
      by_cases hempty : strconv.hasSign s = true ∧ (strconv.unsigned s).length < 1
      · rw [if_pos hempty]
        exact ⟨0, false, rfl⟩
      · rw [if_neg hempty, fastLoop_bad 0 _ hall]
        exact ⟨0, false, rfl⟩
    · rw [if_neg hfast, ParseInt_cases s hs hne]
      rcases uintLoop_bad 0 _ hall with hl | hl
      · rw [hl]
        exact ⟨0, false, rfl⟩
      · rw [hl]
        by_cases hneg : strconv.isNeg s = true
        · exact ⟨-(2 ^ 63), true, by simp [hneg]⟩
        · exact ⟨2 ^ 63 - 1, true, by simp [hneg]⟩

/-! ## Lemmas: request models and their dispatch -/

theorem setters_keep (opts : List GristRequestOpt) (r : GristRequest)
    (h : ∀ opt ∈ opts, (∃ d, opt = SetDocument d) ∨ (∃ t, opt = SetTable t) ∨
      ∃ f, opt = SetFilter f) :
    (opts.foldl (fun r opt => opt r) r).Method = r.Method ∧
      (opts.foldl (fun r opt => opt r) r).Data = r.Data ∧
      (opts.foldl (fun r opt => opt r) r).Path = r.Path := by
  induction opts generalizing r with
  | nil => exact ⟨rfl, rfl, rfl⟩
  | cons opt opts ih =>
    have hrest : ∀ o ∈ opts, (∃ d, o = SetDocument d) ∨ (∃ t, o = SetTable t) ∨
        ∃ f, o = SetFilter f := fun o ho => h o (by simp [ho])
    have hstep := ih (opt r) hrest
    simp only [List.foldl_cons]
    rcases h opt (by simp) with ⟨d, rfl⟩ | ⟨t, rfl⟩ | ⟨f, rfl⟩
    · exact hstep
    · exact hstep
    · exact hstep

theorem GetRecordsWithOptions_request (c : Client) (opts : List GristRequestOpt) :
    c.GetRecordsWithOptions opts = c.httpRequest (optionsRequest opts) := rfl

theorem optionsRequest_path (opts : List GristRequestOpt) :
    (optionsRequest opts).Path =
      lit "/api/docs/" ++
        (opts.foldl (fun (r : GristRequest) (opt : GristRequestOpt) => opt r) {}).Document ++
        lit "/tables/" ++
        (opts.foldl (fun (r : GristRequest) (opt : GristRequestOpt) => opt r) {}).Table ++
        lit "/records" := by
  unfold optionsRequest
  simp only [Sprintf_records]

theorem encodeAll_ok {α : Type} (enc : α → Except GoError Bytes) (xs : List α)
    (items : List Bytes) (h : json.encodeAll enc xs = .ok items) :
    List.Forall₂ (fun x item => enc x = .ok item) xs items := by
  induction xs generalizing items with
  | nil =>
    simp only [json.encodeAll, Except.ok.injEq] at h
    subst h
    exact List.Forall₂.nil
  | cons x xs ih =>
    unfold json.encodeAll at h
    cases hx : enc x with
    | error e => rw [hx] at h; cases h
    | ok b =>
      rw [hx] at h
      simp only at h
      cases ht : json.encodeAll enc xs with
      | error e => rw [ht] at h; cases h
      | ok bs =>
        rw [ht] at h
        simp only [Except.ok.injEq] at h
        subst h
        exact List.Forall₂.cons hx (ih bs ht)

theorem Columns_encode_ok (columns : Option (List Column)) (data : Bytes)
    (h : Columns.encode columns = .ok data) :
    (∀ cols, columns = some cols →
      ∃ items, List.Forall₂ (fun col item => Column.encode col = .ok item) cols items ∧
        data = json.object [some (json.field "columns" (json.array items))]) ∧
    (columns = none → data = lit "\x7b\"columns\":null\x7d") := by
  constructor
  · rintro cols rfl
    unfold Columns.encode json.slice at h
    simp only at h
    cases ht : json.encodeAll Column.encode cols with
    | error e => rw [ht] at h; cases h
    | ok items =>
      rw [ht] at h
      simp only [Except.ok.injEq] at h
      exact ⟨items, encodeAll_ok _ _ _ ht, h.symm⟩
  · rintro rfl
    have : Columns.encode none = .ok (lit "\x7b\"columns\":null\x7d") := by decide
    rw [this] at h
    exact (Except.ok.inj h).symm

theorem Sprintf_columns (d t : Bytes) :
    Sprintf (lit "/api/docs/%s/tables/%s/columns") [.s d, .s t] =
      lit "/api/docs/" ++ d ++ lit "/tables/" ++ t ++ lit "/columns" := by
  simp [Sprintf, lit, formatArg, byte, Fin.ofNat]

theorem CreateWorkspace_calls (c : Client) (orgID : Int) (name : Bytes) :
    (c.CreateWorkspace orgID name).calls =
      (c.httpRequest
        { Path := Sprintf (lit "/api/orgs/%d/workspaces") [.d orgID], Method := lit "POST",
          Data := some (WorkspaceName.encode { Name := name }) }).calls := by
  unfold Client.CreateWorkspace
  simp only
  generalize c.httpRequest _ = res
  rcases res with ⟨v, _ | e, cs⟩ <;> rfl

/-- On a 200 answer whose body reads as b, `CreateWorkspace` returns what
`Atoi` makes of b. -/
theorem CreateWorkspace_ok (c : Client) (orgID : Int) (name : Bytes) (req : http.Request)
    (resp : http.Response) (b : Bytes) (hreq : req ∈ (c.CreateWorkspace orgID name).calls)
    (hdo : c.Do req = .ok resp) (hs : resp.StatusCode = 200) (hb : resp.Body = .ok b) :
    (c.CreateWorkspace orgID name).value = (strconv.Atoi b).1 ∧
      (c.CreateWorkspace orgID name).err = (strconv.Atoi b).2 := by
  rw [CreateWorkspace_calls] at hreq
  obtain ⟨hv, he⟩ := httpRequest_ok _ _ _ _ _ hreq hdo hs hb
  constructor <;> simp only [Client.CreateWorkspace, he, hv, stringOf, Option.getD_some]

/-! ## Claims on options, workspaces and columns -/

/-- C11 as stated fails. The request model `GetRecordsWithOptions` builds from
`SetDocument(d)` and `SetTable(t)` is not the one `GetRecords(d, t)` builds: its
method is empty where `GetRecords` sets GET, and it keeps the document and the
table in its fields `Document` and `Table`, which `GetRecords` leaves empty.
And an option is any function on the request model: one that sets `Method` and
`Data` makes the call send a DELETE with a body. -/
theorem C11_counterexample :
    optionsRequest [SetDocument (lit "d"), SetTable (lit "t")] =
      { Path := lit "/api/docs/d/tables/t/records", Method := [], Document := lit "d",
        Table := lit "t", Filter := none, Data := none } ∧
    recordsRequest (lit "d") (lit "t") =
      { Path := lit "/api/docs/d/tables/t/records", Method := lit "GET", Document := [],
        Table := [], Filter := none, Data := none } ∧
    optionsRequest [SetDocument (lit "d"), SetTable (lit "t")] ≠
      recordsRequest (lit "d") (lit "t") ∧
    optionsRequest [SetDocument [], SetTable []] ≠ recordsRequest [] [] ∧
    ((anonClient 200 []).GetRecordsWithOptions
        [fun r => { r with Method := lit "DELETE", Data := some (lit "x") }]).calls.map
        (fun req => (req.Method, req.Body)) = [(lit "DELETE", some (lit "x"))] := by
  decide

/-- C11, amended. Let D, T, M and B be the document, the table, the method and
the data the options leave on the request model, applied in order to the empty
model. `GetRecordsWithOptions` builds the text base URL plus "/api/docs/", D,
"/tables/", T and "/records". Every request it hands to the transport has the
method M, or GET when M is empty, the body B, and the URL `url.Parse` reads
from that text, with an empty port removed from the host and the query string
encoded anew with the filters. When M is empty or a valid method, that request
is sent, and only that one, if `url.Parse` accepts the text, and nothing is
sent and the error of `http.NewRequest` is returned if it rejects the text.
With options built by `SetDocument`, `SetTable` and `SetFilter` only, M is
empty and B is nil: the method is GET and there is no body. With
`SetDocument(d)` and `SetTable(t)` the call sends what `GetRecords(d, t)` sends
and returns what it returns; the two request models have the same path, no
filter and no data, but differ in the method, empty in one and GET in the
other, and in the fields `Document` and `Table`, d and t in one and empty in the
other. -/
theorem C11_records_with_options (c : Client) (opts : List GristRequestOpt) (d : DocumentID)
    (t : TableID) :
    (∀ req ∈ (c.GetRecordsWithOptions opts).calls,
      req.Method =
        (if (opts.foldl (fun (r : GristRequest) (opt : GristRequestOpt) => opt r) {}).Method = []
          then lit "GET"
          else (opts.foldl (fun (r : GristRequest) (opt : GristRequestOpt) => opt r) {}).Method) ∧
      req.Body = (opts.foldl (fun (r : GristRequest) (opt : GristRequestOpt) => opt r) {}).Data ∧
      ∃ u, url.Parse (c.URL ++ (lit "/api/docs/" ++
            (opts.foldl (fun (r : GristRequest) (opt : GristRequestOpt) => opt r) {}).Document ++
            lit "/tables/" ++
            (opts.foldl (fun (r : GristRequest) (opt : GristRequestOpt) => opt r) {}).Table ++
            lit "/records")) = .ok u ∧
          req.URL = { u with
            Host := http.removeEmptyPort u.Host,
            RawQuery := url.Values.Encode (c.query
              (opts.foldl (fun (r : GristRequest) (opt : GristRequestOpt) => opt r) {})
              u.Query) }) ∧
    (http.validMethod
        (if (opts.foldl (fun (r : GristRequest) (opt : GristRequestOpt) => opt r) {}).Method = []
          then lit "GET"
          else (opts.foldl (fun (r : GristRequest) (opt : GristRequestOpt) => opt r) {}).Method) =
        true →
      (∀ u, url.Parse (c.URL ++ (lit "/api/docs/" ++
            (opts.foldl (fun (r : GristRequest) (opt : GristRequestOpt) => opt r) {}).Document ++
            lit "/tables/" ++
            (opts.foldl (fun (r : GristRequest) (opt : GristRequestOpt) => opt r) {}).Table ++
            lit "/records")) = .ok u →
        (c.GetRecordsWithOptions opts).calls =
          [{ Method :=
               if (opts.foldl (fun (r : GristRequest) (opt : GristRequestOpt) => opt r) {}).Method
                   = []
                 then lit "GET"
                 else
                   (opts.foldl (fun (r : GristRequest) (opt : GristRequestOpt) => opt r) {}).Method,
             URL := { u with
               Host := http.removeEmptyPort u.Host,
               RawQuery := url.Values.Encode (c.query
                 (opts.foldl (fun (r : GristRequest) (opt : GristRequestOpt) => opt r) {})
                 u.Query) },
             Header := [(lit "Content-Type", lit "application/json"),
               (lit "Authorization", lit "Bearer " ++ c.Token)],
             Body :=
               (opts.foldl (fun (r : GristRequest) (opt : GristRequestOpt) => opt r) {}).Data }]) ∧
      (∀ e, url.Parse (c.URL ++ (lit "/api/docs/" ++
            (opts.foldl (fun (r : GristRequest) (opt : GristRequestOpt) => opt r) {}).Document ++
            lit "/tables/" ++
            (opts.foldl (fun (r : GristRequest) (opt : GristRequestOpt) => opt r) {}).Table ++
            lit "/records")) = .error e →
        c.GetRecordsWithOptions opts = ⟨none, some (.newRequest e), []⟩)) ∧
    ((∀ opt ∈ opts, (∃ x, opt = SetDocument x) ∨ (∃ x, opt = SetTable x) ∨
        ∃ x, opt = SetFilter x) →
      (opts.foldl (fun (r : GristRequest) (opt : GristRequestOpt) => opt r) {}).Method = [] ∧
      (opts.foldl (fun (r : GristRequest) (opt : GristRequestOpt) => opt r) {}).Data = none ∧
      http.validMethod
        (if (opts.foldl (fun (r : GristRequest) (opt : GristRequestOpt) => opt r) {}).Method = []
          then lit "GET"
          else (opts.foldl (fun (r : GristRequest) (opt : GristRequestOpt) => opt r) {}).Method) =
        true ∧
      ∀ req ∈ (c.GetRecordsWithOptions opts).calls, req.Method = lit "GET" ∧ req.Body = none) ∧
    c.GetRecordsWithOptions [SetDocument d, SetTable t] = c.GetRecords d t ∧
    optionsRequest [SetDocument d, SetTable t] =
      { Path := lit "/api/docs/" ++ d ++ lit "/tables/" ++ t ++ lit "/records", Method := [],
        Document := d, Table := t, Filter := none, Data := none } ∧
    recordsRequest d t =
      { Path := lit "/api/docs/" ++ d ++ lit "/tables/" ++ t ++ lit "/records",
        Method := lit "GET", Document := [], Table := [], Filter := none, Data := none } ∧
    optionsRequest [SetDocument d, SetTable t] ≠ recordsRequest d t := by
  have hsent : ∀ req ∈ (c.GetRecordsWithOptions opts).calls,
      ∃ u, url.Parse (c.URL ++ (lit "/api/docs/" ++
            (opts.foldl (fun (r : GristRequest) (opt : GristRequestOpt) => opt r) {}).Document ++
            lit "/tables/" ++
            (opts.foldl (fun (r : GristRequest) (opt : GristRequestOpt) => opt r) {}).Table ++
            lit "/records")) = .ok u ∧ req = c.outgoing (optionsRequest opts) u := by
    intro req hreq
    rw [GetRecordsWithOptions_request] at hreq
    obtain ⟨u, hu, hout, _⟩ := httpRequest_sent c _ req hreq
    rw [optionsRequest_path] at hu
    exact ⟨u, hu, hout⟩
  have hopt : optionsRequest [SetDocument d, SetTable t] =
      { Path := lit "/api/docs/" ++ d ++ lit "/tables/" ++ t ++ lit "/records", Method := [],
        Document := d, Table := t, Filter := none, Data := none } := by
    simp only [optionsRequest, List.foldl_cons, List.foldl_nil, SetDocument, SetTable,
      Sprintf_records]
  have hrec : recordsRequest d t =
      { Path := lit "/api/docs/" ++ d ++ lit "/tables/" ++ t ++ lit "/records",
        Method := lit "GET", Document := [], Table := [], Filter := none, Data := none } := by
    simp only [recordsRequest, Sprintf_records]
  refine ⟨?_, ?_, ?_, ?_, hopt, hrec, ?_⟩
  · intro req hreq
    obtain ⟨u, hu, hout⟩ := hsent req hreq
    subst hout
    exact ⟨rfl, rfl, u, hu, rfl⟩
  · intro hv
    constructor
    · intro u hu
      rw [GetRecordsWithOptions_request]
      rw [← optionsRequest_path] at hu
      exact httpRequest_calls_of_parse c (optionsRequest opts) u hv hu
    · intro e he
      rw [GetRecordsWithOptions_request]
      rw [← optionsRequest_path] at he
      exact httpRequest_parse_error c (optionsRequest opts) e hv he
  · intro hset
    obtain ⟨hm, hd, _⟩ := setters_keep opts {} hset
    have hm0 : (opts.foldl (fun (r : GristRequest) (opt : GristRequestOpt) => opt r) {}).Method
        = [] := hm
    refine ⟨hm0, hd, ?_, ?_⟩
    · rw [if_pos hm0]
      decide
    · intro req hreq
      obtain ⟨u, hu, hout⟩ := hsent req hreq
      subst hout
      constructor
      · show (if (optionsRequest opts).Method = [] then lit "GET"
          else (optionsRequest opts).Method) = lit "GET"
        have : (optionsRequest opts).Method = [] := hm
        rw [if_pos this]
      · exact hd
  · rw [GetRecordsWithOptions_request]
    exact httpRequest_congr c (optionsRequest [SetDocument d, SetTable t]) (recordsRequest d t)
      rfl rfl rfl rfl
  · rw [hopt, hrec]
    intro h
    have hm : ([] : Bytes) = lit "GET" := congrArg GristRequest.Method h
    exact absurd hm (by decide)

/-- C11, amended, at the call of the test suite, `SetDocument("document1")` and
`SetFilter` with the filter `{"id": [1]}`, at a call whose document ID holds a
line feed, and at the document `d` and the table `t`. -/
theorem C11_records_with_options_witness :
    ((anonClient 200 []).GetRecordsWithOptions
        [SetDocument (lit "document1"), SetFilter (some idFilter)]).calls =
      [{ Method := lit "GET",
         URL := testURL (lit "/api/docs/document1/tables//records")
           (lit "filter=%7B%22id%22%3A+%5B1%5D%7D"),
         Header := [(lit "Content-Type", lit "application/json"),
           (lit "Authorization", lit "Bearer ")],
         Body := none }] ∧
    (anonClient 200 []).GetRecordsWithOptions [SetDocument (lit "d\n")] =
      ⟨none, some (.newRequest (lit "net/url: invalid control character in URL")), []⟩ ∧
    (lit "GET" = lit "GET" ∧ (none : Option Bytes) = none) ∧
    (anonClient 200 []).GetRecordsWithOptions [SetDocument (lit "d"), SetTable (lit "t")] =
      (anonClient 200 []).GetRecords (lit "d") (lit "t") ∧
    optionsRequest [SetDocument (lit "d"), SetTable (lit "t")] ≠
      recordsRequest (lit "d") (lit "t") :=
  ⟨((C11_records_with_options (anonClient 200 [])
      [SetDocument (lit "document1"), SetFilter (some idFilter)] (lit "d") (lit "t")).2.1
      (by decide)).1
      (testURL (lit "/api/docs/document1/tables//records") []) (by decide),
    ((C11_records_with_options (anonClient 200 []) [SetDocument (lit "d\n")] (lit "d")
      (lit "t")).2.1 (by decide)).2
      (lit "net/url: invalid control character in URL") (by decide),
    ((C11_records_with_options (anonClient 200 [])
      [SetDocument (lit "document1"), SetFilter (some idFilter)] (lit "d") (lit "t")).2.2.1
      (fun opt hopt => by
        simp only [List.mem_cons, List.mem_singleton, List.not_mem_nil, or_false] at hopt
        rcases hopt with rfl | rfl
        · exact Or.inl ⟨_, rfl⟩
        · exact Or.inr (Or.inr ⟨_, rfl⟩))).2.2.2
      { Method := lit "GET",
        URL := testURL (lit "/api/docs/document1/tables//records")
          (lit "filter=%7B%22id%22%3A+%5B1%5D%7D"),
        Header := [(lit "Content-Type", lit "application/json"),
          (lit "Authorization", lit "Bearer ")],
        Body := none }
      (by decide),
    (C11_records_with_options (anonClient 200 []) [] (lit "d") (lit "t")).2.2.2.1,
    (C11_records_with_options (anonClient 200 []) [] (lit "d") (lit "t")).2.2.2.2.2.2⟩

/-- C12: each of `SetDocument(d)`, `SetTable(t)` and `SetFilter(f)` sets its one
field of the request model (Document, Table, Filter) to its argument and leaves
the five other fields as they were; applied twice, the second argument stays,
as if the option had been applied once with it. -/
theorem C12_options_frame (r : GristRequest) (d d2 : DocumentID) (t t2 : TableID)
    (f f2 : RawMessage) :
    ((SetDocument d r).Document = d ∧ (SetDocument d r).Path = r.Path ∧
      (SetDocument d r).Method = r.Method ∧ (SetDocument d r).Table = r.Table ∧
      (SetDocument d r).Filter = r.Filter ∧ (SetDocument d r).Data = r.Data) ∧
    ((SetTable t r).Table = t ∧ (SetTable t r).Path = r.Path ∧
      (SetTable t r).Method = r.Method ∧ (SetTable t r).Document = r.Document ∧
      (SetTable t r).Filter = r.Filter ∧ (SetTable t r).Data = r.Data) ∧
    ((SetFilter f r).Filter = f ∧ (SetFilter f r).Path = r.Path ∧
      (SetFilter f r).Method = r.Method ∧ (SetFilter f r).Document = r.Document ∧
      (SetFilter f r).Table = r.Table ∧ (SetFilter f r).Data = r.Data) ∧
    SetDocument d2 (SetDocument d r) = SetDocument d2 r ∧
    SetTable t2 (SetTable t r) = SetTable t2 r ∧
    SetFilter f2 (SetFilter f r) = SetFilter f2 r :=
  ⟨⟨rfl, rfl, rfl, rfl, rfl, rfl⟩, ⟨rfl, rfl, rfl, rfl, rfl, rfl⟩,
    ⟨rfl, rfl, rfl, rfl, rfl, rfl⟩, rfl, rfl, rfl⟩

/-- C13 as stated fails: the body `9223372036854775808` is the decimal text of
an integer, and `CreateWorkspace` returns the largest `int` with a range error
of `Atoi`, not that integer with a nil error. -/
theorem C13_counterexample :
    decimalInt (lit "9223372036854775808") = some 9223372036854775808 ∧
    ((anonClient 200 (lit "9223372036854775808")).CreateWorkspace 3 (lit "w")).value =
      9223372036854775807 ∧
    ((anonClient 200 (lit "9223372036854775808")).CreateWorkspace 3 (lit "w")).err =
      some (.numError (lit "9223372036854775808") true) := by
  decide

/-- C13, amended: on a 200 answer whose body is the decimal text of an integer
n, optionally signed, `CreateWorkspace` returns n and no error when n fits
`int` (64 bits), and the nearest bound of `int` with a range error of `Atoi`
when it does not; on a 200 answer with any other body it returns an error of
`Atoi`, which is no GristError; and when the dispatcher fails it returns 0 and
the error of the dispatcher. -/
theorem C13_create_workspace (c : Client) (orgID : Int) (name : Bytes) :
    (∀ req resp b, req ∈ (c.CreateWorkspace orgID name).calls → c.Do req = .ok resp →
      resp.StatusCode = 200 → resp.Body = .ok b →
      (∀ n, decimalInt b = some n → -(2 ^ 63) ≤ n → n < 2 ^ 63 →
        (c.CreateWorkspace orgID name).value = n ∧ (c.CreateWorkspace orgID name).err = none) ∧
      (∀ n, decimalInt b = some n → (n < -(2 ^ 63) ∨ 2 ^ 63 ≤ n) →
        (c.CreateWorkspace orgID name).value = (if n < 0 then -(2 ^ 63) else 2 ^ 63 - 1) ∧
          (c.CreateWorkspace orgID name).err = some (.numError b true)) ∧
      (decimalInt b = none →
        ∃ flag, (c.CreateWorkspace orgID name).err = some (.numError b flag))) ∧
    (∀ e, (c.httpRequest
        { Path := Sprintf (lit "/api/orgs/%d/workspaces") [.d orgID], Method := lit "POST",
          Data := some (WorkspaceName.encode { Name := name }) }).err = some e →
      (c.CreateWorkspace orgID name).value = 0 ∧ (c.CreateWorkspace orgID name).err = some e) := by
  constructor
  · intro req resp b hreq hdo hs hb
    obtain ⟨hv, he⟩ := CreateWorkspace_ok c orgID name req resp b hreq hdo hs hb
    refine ⟨?_, ?_, ?_⟩
    · intro n hn hlo hhi
      rw [hv, he, Atoi_decimal b n hn hlo hhi]
      exact ⟨rfl, rfl⟩
    · intro n hn hout
      rw [hv, he, Atoi_out_of_range b n hn hout]
      exact ⟨rfl, rfl⟩
    · intro hn
      obtain ⟨v, flag, ha⟩ := Atoi_not_decimal b hn
      rw [he, ha]
      exact ⟨flag, rfl⟩
  · intro e he
    constructor <;> simp only [Client.CreateWorkspace, he]

/-- C13, amended, at the answers `17` and `17` followed by a newline. -/
theorem C13_create_workspace_witness :
    (((anonClient 200 (lit "17")).CreateWorkspace 3 (lit "w")).value = 17 ∧
      ((anonClient 200 (lit "17")).CreateWorkspace 3 (lit "w")).err = none) ∧
    ∃ flag, ((anonClient 200 (lit "17\n")).CreateWorkspace 3 (lit "w")).err =
      some (.numError (lit "17\n") flag) :=
  ⟨((C13_create_workspace (anonClient 200 (lit "17")) 3 (lit "w")).1
      { Method := lit "POST",
        URL := testURL (lit "/api/orgs/3/workspaces") [],
        Header := [(lit "Content-Type", lit "application/json"),
          (lit "Authorization", lit "Bearer ")],
        Body := some (lit "\x7b\"name\":\"w\"\x7d") }
      ⟨200, .ok (lit "17")⟩ (lit "17") (by decide) rfl rfl rfl).1 17 (by decide) (by decide)
      (by decide),
    ((C13_create_workspace (anonClient 200 (lit "17\n")) 3 (lit "w")).1
      { Method := lit "POST",
        URL := testURL (lit "/api/orgs/3/workspaces") [],
        Header := [(lit "Content-Type", lit "application/json"),
          (lit "Authorization", lit "Bearer ")],
        Body := some (lit "\x7b\"name\":\"w\"\x7d") }
      ⟨200, .ok (lit "17\n")⟩ (lit "17\n") (by decide) rfl rfl rfl).2.2 (by decide)⟩

/-- C14 as stated fails. `CreateColumns` called without columns serializes a nil
slice, so the body is `{"columns":null}`, whose field `columns` is no list. And
a request is not sent for every document ID: for one with a line feed
`PatchColumns` sends nothing and returns the error of `http.NewRequest`. -/
theorem C14_counterexample :
    Columns.encode none = .ok (lit "\x7b\"columns\":null\x7d") ∧
    ((anonClient 200 []).CreateColumns (lit "doc") { ID := lit "T" } none).calls.map
        (fun req => (req.Method, req.Body)) =
      [(lit "POST", some (lit "\x7b\"columns\":null\x7d"))] ∧
    wrapsList (lit "columns") (lit "\x7b\"columns\":null\x7d") = false ∧
    (anonClient 200 []).PatchColumns (lit "doc\n") { ID := lit "T" } (some [textColumn]) =
      ⟨none, some (.newRequest (lit "net/url: invalid control character in URL")), []⟩ := by
  decide

/-- C14, amended. When the columns serialize to `data`, `CreateColumns` and
`PatchColumns` build the text base URL plus "/api/docs/", the document ID,
"/tables/", the ID of the table and "/columns". When `url.Parse` accepts that
text, each of them hands exactly one request to the transport, `CreateColumns` a
POST and `PatchColumns` a PATCH, otherwise the same request: to the URL parsed
from the text (an empty port removed from its host, its query string encoded
anew, with the global filter added to it), with the two headers and the body
`data`. That URL has no query string of its own and no fragment when the text
holds neither a question mark nor a number sign. When `url.Parse` rejects the
text, both send nothing and return the error of `http.NewRequest` with a nil
payload. For a non-nil list of columns, empty or not, `data` is the object whose
only field `columns` is the list of the serialized columns, one for each
column, in order; for a call without columns (a nil slice) it is
`{"columns":null}`. -/
theorem C14_write_columns (c : Client) (document : DocumentID) (table : Table)
    (columns : Option (List Column)) (data : Bytes) (henc : Columns.encode columns = .ok data) :
    (∀ u, url.Parse (c.URL ++ (lit "/api/docs/" ++ document ++ lit "/tables/" ++ table.ID ++
        lit "/columns")) = .ok u →
      (c.CreateColumns document table columns).calls =
        [{ Method := lit "POST",
           URL := { u with
             Host := http.removeEmptyPort u.Host,
             RawQuery := url.Values.Encode
               (match c.GlobalFilter with
                | some g => url.Values.Add u.Query (lit "filter") g
                | none => u.Query) },
           Header := [(lit "Content-Type", lit "application/json"),
             (lit "Authorization", lit "Bearer " ++ c.Token)],
           Body := some data }] ∧
      (c.PatchColumns document table columns).calls =
        [{ Method := lit "PATCH",
           URL := { u with
             Host := http.removeEmptyPort u.Host,
             RawQuery := url.Values.Encode
               (match c.GlobalFilter with
                | some g => url.Values.Add u.Query (lit "filter") g
                | none => u.Query) },
           Header := [(lit "Content-Type", lit "application/json"),
             (lit "Authorization", lit "Bearer " ++ c.Token)],
           Body := some data }] ∧
      (byte '?' ∉ c.URL ++ (lit "/api/docs/" ++ document ++ lit "/tables/" ++ table.ID ++
          lit "/columns") → u.RawQuery = []) ∧
      (byte '#' ∉ c.URL ++ (lit "/api/docs/" ++ document ++ lit "/tables/" ++ table.ID ++
          lit "/columns") → u.Fragment = [])) ∧
    (∀ e, url.Parse (c.URL ++ (lit "/api/docs/" ++ document ++ lit "/tables/" ++ table.ID ++
        lit "/columns")) = .error e →
      c.CreateColumns document table columns = ⟨none, some (.newRequest e), []⟩ ∧
      c.PatchColumns document table columns = ⟨none, some (.newRequest e), []⟩) ∧
    (∀ cols, columns = some cols →
      ∃ items, List.Forall₂ (fun col item => Column.encode col = .ok item) cols items ∧
        data = json.object [some (json.field "columns" (json.array items))]) ∧
    (columns = none → data = lit "\x7b\"columns\":null\x7d") := by
  have hpost : ¬ lit "POST" = [] := by decide
  have hpatch : ¬ lit "PATCH" = [] := by decide
  have hvpost : http.validMethod (if lit "POST" = [] then lit "GET" else lit "POST") = true := by
    decide
  have hvpatch :
      http.validMethod (if lit "PATCH" = [] then lit "GET" else lit "PATCH") = true := by
    decide
  have hcreate : c.CreateColumns document table columns =
      c.httpRequest
        { Path := lit "/api/docs/" ++ document ++ lit "/tables/" ++ table.ID ++ lit "/columns",
          Method := lit "POST", Data := some data } := by
    simp only [Client.CreateColumns, Client.writeColumns, henc, Sprintf_columns]
  have hpatchreq : c.PatchColumns document table columns =
      c.httpRequest
        { Path := lit "/api/docs/" ++ document ++ lit "/tables/" ++ table.ID ++ lit "/columns",
          Method := lit "PATCH", Data := some data } := by
    simp only [Client.PatchColumns, Client.writeColumns, henc, Sprintf_columns]
  refine ⟨?_, ?_, (Columns_encode_ok columns data henc).1, (Columns_encode_ok columns data henc).2⟩
  · intro u hu
    refine ⟨?_, ?_, fun hq => Parse_no_query _ u hu hq, fun hq => Parse_no_fragment _ u hu hq⟩
    · rw [hcreate, httpRequest_calls_of_parse c _ u hvpost hu]
      simp only [Client.outgoing, Client.query, if_neg hpost]
    · rw [hpatchreq, httpRequest_calls_of_parse c _ u hvpatch hu]
      simp only [Client.outgoing, Client.query, if_neg hpatch]
  · intro e he
    constructor
    · rw [hcreate]
      exact httpRequest_parse_error c _ e hvpost he
    · rw [hpatchreq]
      exact httpRequest_parse_error c _ e hvpatch he

/-- C14, amended, at one text column sent by a client with a global filter, at
a document ID with a line feed, and at a call without columns. -/
theorem C14_write_columns_witness :
    (((sampleClient (some idFilter) 200 []).CreateColumns (lit "doc") { ID := lit "T" }
        (some [textColumn])).calls =
        [{ Method := lit "POST",
           URL := testURL (lit "/api/docs/doc/tables/T/columns")
             (lit "filter=%7B%22id%22%3A+%5B1%5D%7D"),
           Header := [(lit "Content-Type", lit "application/json"),
             (lit "Authorization", lit "Bearer secret")],
           Body := some (lit ("\x7b\"columns\":[\x7b\"id\":\"name\",\"fields\":\x7b\"label\":\"Name\"," ++
             "\"type\":\"Text\",\"recalcWhen\":0\x7d\x7d]\x7d")) }] ∧
      ((sampleClient (some idFilter) 200 []).PatchColumns (lit "doc") { ID := lit "T" }
        (some [textColumn])).calls =
        [{ Method := lit "PATCH",
           URL := testURL (lit "/api/docs/doc/tables/T/columns")
             (lit "filter=%7B%22id%22%3A+%5B1%5D%7D"),
           Header := [(lit "Content-Type", lit "application/json"),
             (lit "Authorization", lit "Bearer secret")],
           Body := some (lit ("\x7b\"columns\":[\x7b\"id\":\"name\",\"fields\":\x7b\"label\":\"Name\"," ++
             "\"type\":\"Text\",\"recalcWhen\":0\x7d\x7d]\x7d")) }] ∧
      (byte '?' ∉ lit "http://grist.test" ++ (lit "/api/docs/" ++ lit "doc" ++ lit "/tables/" ++
          lit "T" ++ lit "/columns") → ([] : Bytes) = []) ∧
      (byte '#' ∉ lit "http://grist.test" ++ (lit "/api/docs/" ++ lit "doc" ++ lit "/tables/" ++
          lit "T" ++ lit "/columns") → ([] : Bytes) = [])) ∧
    ((anonClient 200 []).CreateColumns (lit "doc\n") { ID := lit "T" } (some [textColumn]) =
        ⟨none, some (.newRequest (lit "net/url: invalid control character in URL")), []⟩ ∧
      (anonClient 200 []).PatchColumns (lit "doc\n") { ID := lit "T" } (some [textColumn]) =
        ⟨none, some (.newRequest (lit "net/url: invalid control character in URL")), []⟩) ∧
    (∃ items, List.Forall₂ (fun col item => Column.encode col = .ok item) [textColumn] items ∧
      lit ("\x7b\"columns\":[\x7b\"id\":\"name\",\"fields\":\x7b\"label\":\"Name\"," ++
          "\"type\":\"Text\",\"recalcWhen\":0\x7d\x7d]\x7d") =
        json.object [some (json.field "columns" (json.array items))]) ∧
    lit "\x7b\"columns\":null\x7d" = lit "\x7b\"columns\":null\x7d" :=
  ⟨(C14_write_columns (sampleClient (some idFilter) 200 []) (lit "doc") { ID := lit "T" }
      (some [textColumn])
      (lit ("\x7b\"columns\":[\x7b\"id\":\"name\",\"fields\":\x7b\"label\":\"Name\"," ++
        "\"type\":\"Text\",\"recalcWhen\":0\x7d\x7d]\x7d")) (by decide)).1
      (testURL (lit "/api/docs/doc/tables/T/columns") []) (by decide),
    (C14_write_columns (anonClient 200 []) (lit "doc\n") { ID := lit "T" }
      (some [textColumn])
      (lit ("\x7b\"columns\":[\x7b\"id\":\"name\",\"fields\":\x7b\"label\":\"Name\"," ++
        "\"type\":\"Text\",\"recalcWhen\":0\x7d\x7d]\x7d")) (by decide)).2.1
      (lit "net/url: invalid control character in URL") (by decide),
    (C14_write_columns (anonClient 200 []) (lit "doc") { ID := lit "T" }
      (some [textColumn])
      (lit ("\x7b\"columns\":[\x7b\"id\":\"name\",\"fields\":\x7b\"label\":\"Name\"," ++
        "\"type\":\"Text\",\"recalcWhen\":0\x7d\x7d]\x7d")) (by decide)).2.2.1
      [textColumn] rfl,
    (C14_write_columns (anonClient 200 []) (lit "doc") { ID := lit "T" } none
      (lit "\x7b\"columns\":null\x7d") (by decide)).2.2.2 rfl⟩

end Gorist
